import Mathlib

/-!
# mbase: the context / environment engine

A shallow embedding of `mycontext/env.go`, `mycontext/context.go`,
`mycontext/meta.go`, `mycontext/zap.go` and `mbase.go`.

Go heap objects become locations in an explicit store that every operation
reads and returns:

* an `env` node keeps its immutable `parent` pointer as a field and refers to
  its `sync.Map` by the location of that map in the store;
* a `*uint64` fork counter is a location of a 64-bit cell.

A Go panic is an `Outcome.panic`.  `sync.Map` is modelled by its contents, an
association list: an operation first hashes its key, which panics on a key that
holds a value of a type that is not comparable, and then compares keys with the
`==` of interface values, under which NaN differs from itself.  The interface
values that are modelled are listed in `Any`.  A Go string is a `String`, its
`len` the number of its characters; a time is a number of nanoseconds.
-/

namespace mycontext

/-! ## Interface values -/

/-- The dynamic types of the interface values of the model (`reflect.Type`). -/
inductive GoType where
  | int
  | int64
  | uint
  | uint64
  | float64
  | bool
  | string
  | netipAddr
  | netipAddrPort
  | netipPrefix
  | time
  | duration
  | keySession
  | sliceInt
  | array1
  deriving DecidableEq, Repr

/-- A `float64`: NaN or a number.  The infinities are left out and the two
zeros are one number. -/
inductive Float64 where
  | NaN
  | num (v : Rat)
  deriving DecidableEq, Repr

/-- Values of type `interface{}`: the nil interface; values of the twelve
types the typed getters of env.go name (a `netip` value and a `time.Time` are
known by a number); the empty struct `keySession{}` of meta.go; `[]int`, whose
type is not comparable; and `[1]interface{}`, whose type is comparable
whatever its element holds. -/
inductive Any where
  | nil
  | int (v : Int)
  | int64 (v : Int)
  | uint (v : Nat)
  | uint64 (v : Nat)
  | float64 (v : Float64)
  | bool (v : Bool)
  | string (v : String)
  | netipAddr (v : Nat)
  | netipAddrPort (v : Nat)
  | netipPrefix (v : Nat)
  | time (v : Int)
  | duration (v : Int)
  | keySession
  | slice (v : List Int)
  | array1 (elem : Any)
  deriving DecidableEq, Repr

/-- `reflect.TypeOf(v)`: the dynamic type, none for the nil interface. -/
def TypeOf : Any → Option GoType
  | .nil => none
  | .int _ => some .int
  | .int64 _ => some .int64
  | .uint _ => some .uint
  | .uint64 _ => some .uint64
  | .float64 _ => some .float64
  | .bool _ => some .bool
  | .string _ => some .string
  | .netipAddr _ => some .netipAddr
  | .netipAddrPort _ => some .netipAddrPort
  | .netipPrefix _ => some .netipPrefix
  | .time _ => some .time
  | .duration _ => some .duration
  | .keySession => some .keySession
  | .slice _ => some .sliceInt
  | .array1 _ => some .array1

/-- `reflect.Type.Comparable()`: a property of the type alone, so true of
`[1]interface{}`. -/
def GoType.Comparable : GoType → Bool
  | .sliceInt => false
  | _ => true

/-- The name Go prints for a dynamic type in a failed type assertion. -/
def GoType.name : GoType → String
  | .int => "int"
  | .int64 => "int64"
  | .uint => "uint"
  | .uint64 => "uint64"
  | .float64 => "float64"
  | .bool => "bool"
  | .string => "string"
  | .netipAddr => "netip.Addr"
  | .netipAddrPort => "netip.AddrPort"
  | .netipPrefix => "netip.Prefix"
  | .time => "time.Time"
  | .duration => "time.Duration"
  | .keySession => "mycontext.keySession"
  | .sliceInt => "[]int"
  | .array1 => "[1]interface \x7b\x7d"

/-- The result of a call that may panic. -/
inductive Outcome (α : Type) where
  | ret (v : α)
  | panic (msg : String)
  deriving DecidableEq, Repr

/-- The runtime can hash the value as a map key: it holds no value of a type
that is not comparable.  A map operation on any other key panics. -/
def hashable : Any → Bool
  | .slice _ => false
  | .array1 elem => hashable elem
  | _ => true

/-- The message of the panic of a map operation on a key that cannot be
hashed. -/
def hashPanic : String := "runtime error: hash of unhashable type []int"

/-- The `==` of two `float64`: NaN is equal to nothing. -/
def Float64.eq : Float64 → Float64 → Bool
  | .num a, .num b => decide (a = b)
  | _, _ => false

/-- The `==` of two interface values that can be hashed, as a map applies it
to its keys: same dynamic type and equal values, arrays element by element.
(Two slices are never compared by a map; the entry for them is not used.) -/
def keyEq : Any → Any → Bool
  | .float64 a, .float64 b => a.eq b
  | .array1 a, .array1 b => keyEq a b
  | .slice _, .slice _ => false
  | a, b => decide (a = b)

/-- The comparison `a == b` of two interface values panics: both hold a slice
at the same place. -/
def eqPanics : Any → Any → Bool
  | .slice _, .slice _ => true
  | .array1 a, .array1 b => eqPanics a b
  | _, _ => false

/-- The comparison `a == b` of two interface values. -/
def goEq (a b : Any) : Outcome Bool :=
  if eqPanics a b then Outcome.panic "runtime error: comparing uncomparable type []int"
  else Outcome.ret (keyEq a b)

/-! ## sync.Map -/

/-- The contents of a `sync.Map`: its entries. -/
structure SyncMap where
  entries : List (Any × Any)
  deriving DecidableEq, Repr

/-- The zero value of `sync.Map`: no entries. -/
def SyncMap.empty : SyncMap := ⟨[]⟩

/-- Lookup in the entries of a map: the first entry whose key is `==` to
`key`. -/
def loadEntries : List (Any × Any) → Any → Any × Bool
  | [], _ => (Any.nil, false)
  | (k, v) :: rest, key => if keyEq k key then (v, true) else loadEntries rest key

/-- Replace the value of the entry whose key is `==` to `key`, or add the
entry when there is none. -/
def storeEntries : List (Any × Any) → Any → Any → List (Any × Any)
  | [], key, value => [(key, value)]
  | (k, v) :: rest, key, value =>
    if keyEq k key then (key, value) :: rest else (k, v) :: storeEntries rest key value

/-- Visit the entries in turn until `f` answers false. -/
def rangeEntries {σ : Type} (f : Any → Any → σ → σ × Bool) : List (Any × Any) → σ → σ
  | [], s => s
  | (k, v) :: rest, s =>
    let r := f k v s
    if r.2 then rangeEntries f rest r.1 else r.1

/-- `m.Load(key)`: the key is hashed first. -/
def SyncMap.Load (m : SyncMap) (key : Any) : Outcome (Any × Bool) :=
  if hashable key then Outcome.ret (loadEntries m.entries key)
  else Outcome.panic hashPanic

/-- `m.Store(key, value)`: the key is hashed first. -/
def SyncMap.Store (m : SyncMap) (key value : Any) : Outcome SyncMap :=
  if hashable key then Outcome.ret ⟨storeEntries m.entries key value⟩
  else Outcome.panic hashPanic

/-- `m.Range(f)`, with the variables the closure `f` captures passed as `s`. -/
def SyncMap.Range {σ : Type} (m : SyncMap) (f : Any → Any → σ → σ × Bool) (s : σ) : σ :=
  rangeEntries f m.entries s

/-! ## The store of environment nodes -/

/-- The `sync.Map` of every allocated `env` node, by location, and the next
free location. -/
structure Heap where
  vals : Nat → SyncMap
  next : Nat

/-- The store before anything is allocated. -/
def Heap.init : Heap := ⟨fun _ => SyncMap.empty, 0⟩

/-- Overwrite the map at location `a`. -/
def Heap.write (h : Heap) (a : Nat) (m : SyncMap) : Heap :=
  { h with vals := fun b => if b = a then m else h.vals b }

/-- Allocate a zero-valued `sync.Map`; returns its location. -/
def Heap.alloc (h : Heap) : Nat × Heap :=
  (h.next, { vals := fun b => if b = h.next then SyncMap.empty else h.vals b, next := h.next + 1 })

/-! ## env.go -/

/-- The struct `env`: `parent *env` (none for nil) and `vals sync.Map`, the
latter by its location in the store. -/
inductive env where
  | mk (parent : Option env) (vals : Nat)
  deriving Repr

/-- The field `e.parent`. -/
def env.parent : env → Option env
  | .mk p _ => p

/-- The location of the field `e.vals`. -/
def env.vals : env → Nat
  | .mk _ a => a

/-- `NewEnv()`: `&env{}`. -/
def NewEnv (h : Heap) : env × Heap :=
  let (a, h1) := h.alloc
  (env.mk none a, h1)

/-- `e.fork()`: `&env{parent: e}`. -/
def env.fork (e : env) (h : Heap) : env × Heap :=
  let (a, h1) := h.alloc
  (env.mk (some e) a, h1)

/-- `e.Fork()`. -/
def env.Fork (e : env) (h : Heap) : env × Heap :=
  e.fork h

/-- `e.Set(key, value)`: the panic, if any, and the store after the call. -/
def env.Set (e : env) (key value : Any) (h : Heap) : Outcome Unit × Heap :=
  if key = Any.nil then (Outcome.panic "nil key", h)
  else
    match TypeOf key with
    | none => (Outcome.panic "invalid memory address or nil pointer dereference", h)
    | some t =>
      if !t.Comparable then (Outcome.panic "key is not comparable", h)
      else
        match (h.vals e.vals).Store key value with
        | Outcome.panic msg => (Outcome.panic msg, h)
        | Outcome.ret m => (Outcome.ret (), h.write e.vals m)

/-- `e.Get(key)`. -/
def env.Get : env → Any → Heap → Outcome (Any × Bool)
  | .mk parent vals, key, h =>
    -- from local
    match (h.vals vals).Load key with
    | Outcome.panic msg => Outcome.panic msg
    | Outcome.ret r =>
      if r.2 then Outcome.ret (r.1, r.2)
      else
        -- otherwise from parent
        match parent with
        | some p => p.Get key h
        | none => Outcome.ret (Any.nil, false)

/-- `e.Has(key)`. -/
def env.Has (e : env) (key : Any) (h : Heap) : Outcome Bool :=
  match e.Get key h with
  | Outcome.panic msg => Outcome.panic msg
  | Outcome.ret r => Outcome.ret r.2

/-- `keys[k] = struct{}{}` on a `map[interface{}]struct{}`, kept as the list of
its keys: the key is hashed, and added unless a key `==` to it is there. -/
def setKey (keys : List Any) (k : Any) : Outcome (List Any) :=
  if hashable k then
    Outcome.ret (if keys.any (fun x => keyEq x k) then keys else keys ++ [k])
  else Outcome.panic hashPanic

/-- The closure that `keys()` passes to `Range`; a panic in it ends the
range. -/
def keysVisit (k : Any) (_v : Any) (keys : Outcome (List Any)) : Outcome (List Any) × Bool :=
  match keys with
  | Outcome.panic msg => (Outcome.panic msg, false)
  | Outcome.ret ks =>
    match setKey ks k with
    | Outcome.panic msg => (Outcome.panic msg, false)
    | Outcome.ret ks2 => (Outcome.ret ks2, true)

/-- `e.keys()`. -/
def env.keys : env → Heap → Outcome (List Any)
  | .mk parent vals, h =>
    let keys :=
      match parent with
      | some p => p.keys h
      | none => Outcome.ret []
    match keys with
    | Outcome.panic msg => Outcome.panic msg
    | Outcome.ret ks => (h.vals vals).Range keysVisit (Outcome.ret ks)

/-- `e.Keys()`: the keys of the index, in the order the `range` visits them. -/
def env.Keys (e : env) (h : Heap) : Outcome (List Any) :=
  match e.keys h with
  | Outcome.panic msg => Outcome.panic msg
  | Outcome.ret idx => Outcome.ret (idx.foldl (fun keys k => keys ++ [k]) [])

/-- The dynamic type of a value as a failed type assertion prints it. -/
def dynName (v : Any) : String :=
  match TypeOf v with
  | none => "nil"
  | some t => t.name

/-- The message of the panic of a failed assertion `value.(want)`. -/
def assertFail (value : Any) (want : String) : String :=
  "interface conversion: interface \x7b\x7d is " ++ dynName value ++ ", not " ++ want

/-- `e.GetInt(key)`: the assertion `value.(int)` panics on any other type. -/
def env.GetInt (e : env) (key : Any) (h : Heap) : Outcome (Int × Bool) :=
  match e.Get key h with
  | Outcome.panic msg => Outcome.panic msg
  | Outcome.ret (value, ok) =>
    if ok then
      match value with
      | .int v => Outcome.ret (v, true)
      | _ => Outcome.panic (assertFail value "int")
    else Outcome.ret (0, false)

/-- `e.GetInt64(key)`. -/
def env.GetInt64 (e : env) (key : Any) (h : Heap) : Outcome (Int × Bool) :=
  match e.Get key h with
  | Outcome.panic msg => Outcome.panic msg
  | Outcome.ret (value, ok) =>
    if ok then
      match value with
      | .int64 v => Outcome.ret (v, true)
      | _ => Outcome.panic (assertFail value "int64")
    else Outcome.ret (0, false)

/-- `e.GetUint(key)`. -/
def env.GetUint (e : env) (key : Any) (h : Heap) : Outcome (Nat × Bool) :=
  match e.Get key h with
  | Outcome.panic msg => Outcome.panic msg
  | Outcome.ret (value, ok) =>
    if ok then
      match value with
      | .uint v => Outcome.ret (v, true)
      | _ => Outcome.panic (assertFail value "uint")
    else Outcome.ret (0, false)

/-- `e.GetUint64(key)`. -/
def env.GetUint64 (e : env) (key : Any) (h : Heap) : Outcome (Nat × Bool) :=
  match e.Get key h with
  | Outcome.panic msg => Outcome.panic msg
  | Outcome.ret (value, ok) =>
    if ok then
      match value with
      | .uint64 v => Outcome.ret (v, true)
      | _ => Outcome.panic (assertFail value "uint64")
    else Outcome.ret (0, false)

/-- `e.GetFloat64(key)`. -/
def env.GetFloat64 (e : env) (key : Any) (h : Heap) : Outcome (Float64 × Bool) :=
  match e.Get key h with
  | Outcome.panic msg => Outcome.panic msg
  | Outcome.ret (value, ok) =>
    if ok then
      match value with
      | .float64 v => Outcome.ret (v, true)
      | _ => Outcome.panic (assertFail value "float64")
    else Outcome.ret (Float64.num 0, false)

/-- `e.GetBool(key)`. -/
def env.GetBool (e : env) (key : Any) (h : Heap) : Outcome (Bool × Bool) :=
  match e.Get key h with
  | Outcome.panic msg => Outcome.panic msg
  | Outcome.ret (value, ok) =>
    if ok then
      match value with
      | .bool v => Outcome.ret (v, true)
      | _ => Outcome.panic (assertFail value "bool")
    else Outcome.ret (false, false)

/-- `e.GetString(key)`. -/
def env.GetString (e : env) (key : Any) (h : Heap) : Outcome (String × Bool) :=
  match e.Get key h with
  | Outcome.panic msg => Outcome.panic msg
  | Outcome.ret (value, ok) =>
    if ok then
      match value with
      | .string v => Outcome.ret (v, true)
      | _ => Outcome.panic (assertFail value "string")
    else Outcome.ret ("", false)

/-- `e.GetNetIPAddr(key)`. -/
def env.GetNetIPAddr (e : env) (key : Any) (h : Heap) : Outcome (Nat × Bool) :=
  match e.Get key h with
  | Outcome.panic msg => Outcome.panic msg
  | Outcome.ret (value, ok) =>
    if ok then
      match value with
      | .netipAddr v => Outcome.ret (v, true)
      | _ => Outcome.panic (assertFail value "netip.Addr")
    else Outcome.ret (0, false)

/-- `e.GetNetIPAddrPort(key)`. -/
def env.GetNetIPAddrPort (e : env) (key : Any) (h : Heap) : Outcome (Nat × Bool) :=
  match e.Get key h with
  | Outcome.panic msg => Outcome.panic msg
  | Outcome.ret (value, ok) =>
    if ok then
      match value with
      | .netipAddrPort v => Outcome.ret (v, true)
      | _ => Outcome.panic (assertFail value "netip.AddrPort")
    else Outcome.ret (0, false)

/-- `e.GetNetIPPrefix(key)`. -/
def env.GetNetIPPrefix (e : env) (key : Any) (h : Heap) : Outcome (Nat × Bool) :=
  match e.Get key h with
  | Outcome.panic msg => Outcome.panic msg
  | Outcome.ret (value, ok) =>
    if ok then
      match value with
      | .netipPrefix v => Outcome.ret (v, true)
      | _ => Outcome.panic (assertFail value "netip.Prefix")
    else Outcome.ret (0, false)

/-- `e.GetTime(key)`. -/
def env.GetTime (e : env) (key : Any) (h : Heap) : Outcome (Int × Bool) :=
  match e.Get key h with
  | Outcome.panic msg => Outcome.panic msg
  | Outcome.ret (value, ok) =>
    if ok then
      match value with
      | .time v => Outcome.ret (v, true)
      | _ => Outcome.panic (assertFail value "time.Time")
    else Outcome.ret (0, false)

/-- `e.GetDuration(key)`. -/
def env.GetDuration (e : env) (key : Any) (h : Heap) : Outcome (Int × Bool) :=
  match e.Get key h with
  | Outcome.panic msg => Outcome.panic msg
  | Outcome.ret (value, ok) =>
    if ok then
      match value with
      | .duration v => Outcome.ret (v, true)
      | _ => Outcome.panic (assertFail value "time.Duration")
    else Outcome.ret (0, false)

/-! ## Vocabulary of the statements about env.go -/

/-- The locations of the maps of `e`, `e.parent`, `e.parent.parent`, ...,
nearest first. -/
def env.chain : env → List Nat
  | .mk none a => [a]
  | .mk (some p) a => a :: p.chain

/-- Every node of the chain of `e` is allocated in the store `h`. -/
def env.allocated (e : env) (h : Heap) : Bool :=
  e.chain.all (fun b => decide (b < h.next))

/-- The node `c` was obtained from `p` by one or more `Fork` calls (a child, a
grandchild, ...), each made in a store that holds the node it forks. -/
inductive ForkedFrom (p : env) : env → Prop where
  | child (h : Heap) : p.allocated h = true → ForkedFrom p (p.Fork h).1
  | deeper (c : env) (h : Heap) :
      ForkedFrom p c → c.allocated h = true → ForkedFrom p (c.Fork h).1

/-- The guards of `Set` and of `context.WithValue` pass: the key is not nil
and its dynamic type is comparable. -/
def validKey (k : Any) : Bool :=
  match TypeOf k with
  | none => false
  | some t => t.Comparable

/-- The keys stored locally in the map at location `a`. -/
def Heap.localKeys (h : Heap) (a : Nat) : List Any :=
  (h.vals a).entries.map Prod.fst

/-- The result of `e.Get(key)` for a key that can be hashed: the lookup along
the chain without the hashing. -/
def env.find : env → Any → Heap → Any × Bool
  | .mk parent vals, key, h =>
    let r := loadEntries (h.vals vals).entries key
    if r.2 then (r.1, r.2)
    else
      match parent with
      | some p => p.find key h
      | none => (Any.nil, false)

/-- Every key stored in the maps of the chain of `e` can be hashed, as `Set`
ensures. -/
def env.keysHashable (e : env) (h : Heap) : Bool :=
  e.chain.all (fun a => (h.localKeys a).all hashable)

/-- What a typed getter does, given the result of `Get`: it passes a panic on,
turns a miss into the zero value, returns a value of its type `T` and panics
on a value of any other type. -/
def getterSpec {τ : Type} (get : env → Any → Heap → Outcome (τ × Bool)) (inj : τ → Any)
    (zero : τ) (T : GoType) (want : String) : Prop :=
  ∀ (e : env) (k : Any) (h : Heap),
    (∀ msg : String, e.Get k h = Outcome.panic msg → get e k h = Outcome.panic msg) ∧
    (∀ x : Any, e.Get k h = Outcome.ret (x, false) → get e k h = Outcome.ret (zero, false)) ∧
    (∀ v : τ, e.Get k h = Outcome.ret (inj v, true) → get e k h = Outcome.ret (v, true)) ∧
    (∀ x : Any, e.Get k h = Outcome.ret (x, true) → TypeOf x ≠ some T →
      get e k h = Outcome.panic (assertFail x want)) ∧
    (∀ x : Any, TypeOf x = some T → ∃ v : τ, x = inj v)

/-! ## The logger, as context.go uses it -/

/-- The methods of the interface `Logger` that context.go calls.  The interface
and its implementation are declared in `logger.go`, which is not among the
sources; context.go is embedded for any implementation `L`. -/
class Logger (L : Type) where
  /-- `NewLogger(name, location, ...)`. -/
  NewLogger : String → String → L
  /-- `l.Fork(name, location)`. -/
  Fork : L → String → String → L
  /-- `l.Name()`. -/
  Name : L → String
  /-- `l.Location()`. -/
  Location : L → String

/-- Modelled from the spec: the struct `logger` of `logger.go`, which is missing
from the sources.  It carries the name, the location chain and the decoration
sequence (the field `with` that logger_test.go reads); the two separators, which
the spec leaves open, are carried along. -/
structure logger where
  name : String
  location : String
  kvs : List Any
  nameSep : String
  locSep : String
  deriving DecidableEq, Repr

/-- Modelled from the spec: `logger.Fork` of the missing `logger.go` (§4.2).  A
non-empty `name` is chained to a non-empty own name with the separator and
replaces an empty one; a non-empty `location` is appended to the location chain
with the chaining separator; an empty argument leaves its part unchanged. -/
def logger.Fork (l : logger) (name location : String) : logger :=
  { l with
    name := if name = "" then l.name
            else if l.name = "" then name else l.name ++ l.nameSep ++ name
    location := if location = "" then l.location
                else if l.location = "" then location else l.location ++ l.locSep ++ location }

/-- Modelled from the spec: `NewLogger` of the missing `logger.go`, with the
name chained by direct concatenation (§4.3) and "/" between locations. -/
def NewLogger (name location : String) : logger :=
  { name := name, location := location, kvs := [], nameSep := "", locSep := "/" }

instance : Logger logger where
  NewLogger := NewLogger
  Fork := logger.Fork
  Name := fun l => l.name
  Location := fun l => l.location

/-! ## context.go -/

/-- The errors of package `context`: `context.Canceled` and
`context.DeadlineExceeded`. -/
inductive StdErr where
  | Canceled
  | DeadlineExceeded
  deriving DecidableEq, Repr

/-- The `context.Context` values of the model: `context.Background()` and the
results of `context.WithValue`, `context.WithCancel` and `context.WithDeadline`.
A cancellable context is known by the number `id` of its object; a time is a
number of nanoseconds. -/
inductive StdContext where
  | background
  | valueCtx (parent : StdContext) (key val : Any)
  | cancelCtx (parent : StdContext) (id : Nat)
  | timerCtx (parent : StdContext) (id : Nat) (deadline : Int)
  deriving DecidableEq, Repr

/-- The store: the environment nodes; the `uint64` cells that fork counters
point to, with the next free cell; the field `err` of every cancellable
context object, which package `context` maintains, with the next free object
number; and the reading of the clock. -/
structure World where
  heap : Heap
  cells : Nat → Nat
  nextCell : Nat
  errs : Nat → Option StdErr := fun _ => none
  nextCtx : Nat := 0
  now : Int := 0

/-- The store before anything is allocated. -/
def World.init : World :=
  { heap := Heap.init, cells := fun _ => 0, nextCell := 0 }

/-- `var tracker uint64` whose address is taken: a new cell holding zero. -/
def World.newUint64 (w : World) : Nat × World :=
  (w.nextCell,
   { w with cells := fun a => if a = w.nextCell then 0 else w.cells a
            nextCell := w.nextCell + 1 })

/-- `atomic.AddUint64(addr, delta)`: adds with wrap-around and returns the new
value. -/
def atomicAddUint64 (addr delta : Nat) (w : World) : Nat × World :=
  let v := (w.cells addr + delta) % 2 ^ 64
  (v, { w with cells := fun a => if a = addr then v else w.cells a })

/-- `strconv.FormatUint(i, base)` for a base from 2 to 36. -/
def FormatUint (i base : Nat) : String :=
  String.mk (Nat.toDigits base i)

/-- The struct `myContextImpl`; `tracker` is the location of the counter. -/
structure myContextImpl (L : Type) where
  stdCtx : StdContext
  tracker : Nat
  env : env
  logger : L

/-- `New(stdCtx, env, logger)`, a nil argument given as none. -/
def New {L : Type} [Logger L] (stdCtx : Option StdContext) (e : Option env) (l : Option L)
    (w : World) : myContextImpl L × World :=
  let stdCtx := stdCtx.getD StdContext.background
  let (e, w1) :=
    match e with
    | some e => (e, w)
    | none => let r := NewEnv w.heap; (r.1, { w with heap := r.2 })
  let l := l.getD (Logger.NewLogger "" "")
  let (tracker, w2) := w1.newUint64
  ({ stdCtx := stdCtx, tracker := tracker, env := e, logger := l }, w2)

/-- `Named(name)`. -/
def Named {L : Type} [Logger L] (name : String) (w : World) : myContextImpl L × World :=
  let r := NewEnv w.heap
  New (some StdContext.background) (some r.1) (some (Logger.NewLogger name ""))
    { w with heap := r.2 }

/-- `myctx.fork(name, location)`. -/
def myContextImpl.fork {L : Type} [Logger L] (myctx : myContextImpl L) (name location : String)
    (w : World) : myContextImpl L × World :=
  let r := myctx.env.Fork w.heap
  ({ stdCtx := myctx.stdCtx
     tracker := myctx.tracker
     env := r.1
     logger := Logger.Fork myctx.logger name location },
   { w with heap := r.2 })

/-- `myctx.At(location)`. -/
def myContextImpl.At {L : Type} [Logger L] (myctx : myContextImpl L) (location : String)
    (w : World) : myContextImpl L × World :=
  myctx.fork "" location w

/-- The value a `ForkAt` on `myctx` in store `w` gives its local variable
`seq`: the sequence number it draws. -/
def myContextImpl.seq {L : Type} (myctx : myContextImpl L) (w : World) : Nat :=
  (atomicAddUint64 myctx.tracker 1 w).1

/-- `myctx.ForkAt(location)`. -/
def myContextImpl.ForkAt {L : Type} [Logger L] (myctx : myContextImpl L) (location : String)
    (w : World) : myContextImpl L × World :=
  let (seq, w1) := atomicAddUint64 myctx.tracker 1 w
  let (newCtx, w2) := myctx.fork (FormatUint seq 10) location w1
  let (tracker, w3) := w2.newUint64
  ({ newCtx with tracker := tracker }, w3)

/-- `myctx.Fork()`. -/
def myContextImpl.Fork {L : Type} [Logger L] (myctx : myContextImpl L)
    (w : World) : myContextImpl L × World :=
  myctx.ForkAt "" w

/-- `myctx.Name()`. -/
def myContextImpl.Name {L : Type} [Logger L] (myctx : myContextImpl L) : String :=
  Logger.Name myctx.logger

/-- `myctx.Location()`. -/
def myContextImpl.Location {L : Type} [Logger L] (myctx : myContextImpl L) : String :=
  Logger.Location myctx.logger

/-- `myctx.Env()`. -/
def myContextImpl.Env {L : Type} (myctx : myContextImpl L) : mycontext.env :=
  myctx.env

/-! ### Package context, as context.go uses it -/

/-- `ctx.Deadline()`. -/
def StdContext.Deadline : StdContext → Int × Bool
  | .background => (0, false)
  | .valueCtx parent _ _ => parent.Deadline
  | .cancelCtx parent _ => parent.Deadline
  | .timerCtx _ _ deadline => (deadline, true)

/-- `ctx.Done()`: the channel, known by the number of the context object that
owns it; none is the nil channel of `context.Background()`. -/
def StdContext.Done : StdContext → Option Nat
  | .background => none
  | .valueCtx parent _ _ => parent.Done
  | .cancelCtx _ id => some id
  | .timerCtx _ id _ => some id

/-- `ctx.Err()`. -/
def StdContext.Err : StdContext → World → Option StdErr
  | .background, _ => none
  | .valueCtx parent _ _, w => parent.Err w
  | .cancelCtx _ id, w => w.errs id
  | .timerCtx _ id _, w => w.errs id

/-- `ctx.Value(key)`: a `valueCtx` compares its key with `key` by `==`, which
may panic. -/
def StdContext.Value : StdContext → Any → Outcome Any
  | .background, _ => Outcome.ret Any.nil
  | .valueCtx parent k val, key =>
    match goEq k key with
    | Outcome.panic msg => Outcome.panic msg
    | Outcome.ret eq => if eq then Outcome.ret val else parent.Value key
  | .cancelCtx parent _, key => parent.Value key
  | .timerCtx parent _ _, key => parent.Value key

/-- `context.WithValue(parent, key, val)`. -/
def context.WithValue (parent : StdContext) (key val : Any) : Outcome StdContext :=
  if key = Any.nil then Outcome.panic "nil key"
  else
    match TypeOf key with
    | none => Outcome.panic "invalid memory address or nil pointer dereference"
    | some t =>
      if !t.Comparable then Outcome.panic "key is not comparable"
      else Outcome.ret (StdContext.valueCtx parent key val)

/-- `context.WithCancel(parent)`: the new context, its cancel function (known
by the number of the context it cancels) and the store.  A parent that is
already done cancels the new context at once. -/
def context.WithCancel (parent : StdContext) (w : World) : (StdContext × Nat) × World :=
  let id := w.nextCtx
  let err := parent.Err w
  ((StdContext.cancelCtx parent id, id),
   { w with errs := fun a => if a = id then err else w.errs a
            nextCtx := w.nextCtx + 1 })

/-- `context.WithDeadline(parent, d)`. -/
def context.WithDeadline (parent : StdContext) (d : Int) (w : World) :
    (StdContext × Nat) × World :=
  let cur := parent.Deadline
  if cur.2 && decide (cur.1 < d) then
    -- The current deadline is already sooner than the new one.
    context.WithCancel parent w
  else
    let id := w.nextCtx
    let err :=
      match parent.Err w with
      | some e => some e
      | none => if d - w.now ≤ 0 then some StdErr.DeadlineExceeded else none
    ((StdContext.timerCtx parent id d, id),
     { w with errs := fun a => if a = id then err else w.errs a
              nextCtx := w.nextCtx + 1 })

/-- `context.WithTimeout(parent, timeout)`. -/
def context.WithTimeout (parent : StdContext) (timeout : Int) (w : World) :
    (StdContext × Nat) × World :=
  context.WithDeadline parent (w.now + timeout) w

/-! ### The rest of context.go -/

/-- `myctx.Deadline()`. -/
def myContextImpl.Deadline {L : Type} (myctx : myContextImpl L) : Int × Bool :=
  myctx.stdCtx.Deadline

/-- `myctx.Done()`. -/
def myContextImpl.Done {L : Type} (myctx : myContextImpl L) : Option Nat :=
  myctx.stdCtx.Done

/-- `myctx.Err()`. -/
def myContextImpl.Err {L : Type} (myctx : myContextImpl L) (w : World) : Option StdErr :=
  myctx.stdCtx.Err w

/-- `myctx.Value(key)`. -/
def myContextImpl.Value {L : Type} (myctx : myContextImpl L) (key : Any) : Outcome Any :=
  myctx.stdCtx.Value key

/-- `myctx.WithCancel()`. -/
def myContextImpl.WithCancel {L : Type} [Logger L] (myctx : myContextImpl L) (w : World) :
    (myContextImpl L × Nat) × World :=
  let (newCtx, w1) := myctx.fork "" "" w
  let r := context.WithCancel newCtx.stdCtx w1
  (({ newCtx with stdCtx := r.1.1 }, r.1.2), r.2)

/-- `myctx.WithDeadline(d)`. -/
def myContextImpl.WithDeadline {L : Type} [Logger L] (myctx : myContextImpl L) (d : Int)
    (w : World) : (myContextImpl L × Nat) × World :=
  let (newCtx, w1) := myctx.fork "" "" w
  let r := context.WithDeadline newCtx.stdCtx d w1
  (({ newCtx with stdCtx := r.1.1 }, r.1.2), r.2)

/-- `myctx.WithTimeout(timeout)`. -/
def myContextImpl.WithTimeout {L : Type} [Logger L] (myctx : myContextImpl L) (timeout : Int)
    (w : World) : (myContextImpl L × Nat) × World :=
  let (newCtx, w1) := myctx.fork "" "" w
  let r := context.WithTimeout newCtx.stdCtx timeout w1
  (({ newCtx with stdCtx := r.1.1 }, r.1.2), r.2)

/-- `myctx.WithValue(key, value)`: the fork comes first, then
`context.WithValue`, which may panic. -/
def myContextImpl.WithValue {L : Type} [Logger L] (myctx : myContextImpl L) (key value : Any)
    (w : World) : Outcome (myContextImpl L) × World :=
  let (newCtx, w1) := myctx.fork "" "" w
  match context.WithValue newCtx.stdCtx key value with
  | Outcome.ret s => (Outcome.ret { newCtx with stdCtx := s }, w1)
  | Outcome.panic msg => (Outcome.panic msg, w1)

/-- `myctx.RebornWith(stdCtx)`, a nil argument given as none. -/
def myContextImpl.RebornWith {L : Type} [Logger L] (myctx : myContextImpl L)
    (stdCtx : Option StdContext) (w : World) : myContextImpl L × World :=
  let stdCtx := stdCtx.getD StdContext.background
  let (newCtx, w1) := myctx.fork "" "" w
  ({ newCtx with stdCtx := stdCtx }, w1)

/-- `myctx.Reborn()`. -/
def myContextImpl.Reborn {L : Type} [Logger L] (myctx : myContextImpl L) (w : World) :
    myContextImpl L × World :=
  myctx.RebornWith (some StdContext.background) w

/-! ## meta.go -/

/-- `SetSession(ctx, session)`; the key is `keySession{}`. -/
def SetSession {L : Type} (ctx : myContextImpl L) (session : String) (w : World) :
    Outcome Unit × World :=
  let r := ctx.Env.Set Any.keySession (Any.string session) w.heap
  (r.1, { w with heap := r.2 })

/-- `GetSession(ctx)`. -/
def GetSession {L : Type} [Logger L] (ctx : myContextImpl L) (w : World) : Outcome String :=
  match ctx.Env.GetString Any.keySession w.heap with
  | Outcome.panic msg => Outcome.panic msg
  | Outcome.ret (val, ok) =>
    if ok then
      if val != "" then Outcome.ret val else Outcome.ret ctx.Name
    else Outcome.ret ctx.Name

/-- `GetRealSession(ctx)`. -/
def GetRealSession {L : Type} (ctx : myContextImpl L) (w : World) : Outcome (String × Bool) :=
  ctx.Env.GetString Any.keySession w.heap

/-! ## logger.go: With -/

/-- Modelled from the spec: `logger.With` of `logger.go`, which is missing from
the sources (§4.2): the derived logger has the decoration sequence of its
parent with the new key-values appended, in the order given.  The spec calls an
odd number of key-values a caller error and does not say what `With` does with
one. -/
def logger.With (l : logger) (keyvals : List Any) : logger :=
  { l with kvs := l.kvs ++ keyvals }

/-! ## mbase.go -/

/-- The closure that `PrefixedSessionNameGenerator` returns: it captures
`header` and the variable `counter`, the latter by its cell. -/
structure mbase.generator where
  header : String
  counter : Nat
  deriving DecidableEq, Repr

/-- `PrefixedSessionNameGenerator(header)`. -/
def mbase.PrefixedSessionNameGenerator (header : String) (w : World) :
    mbase.generator × World :=
  let (counter, w1) := w.newUint64
  ({ header := header, counter := counter }, w1)

/-- The slice expression `s[:hi]` of a string: a bound that is negative or
beyond the length panics. -/
def sliceTo (s : String) (hi : Int) : Outcome String :=
  if hi < 0 ∨ hi > (s.length : Int) then Outcome.panic "slice bounds out of range"
  else Outcome.ret (String.mk (s.data.take hi.toNat))

/-- A call of the generator, `pfx` being the variadic argument `prefix`. -/
def mbase.generator.call (g : mbase.generator) (pfx : List String) (w : World) :
    Outcome String × World :=
  -- return bootid related sequential name
  let h := "000000000000"
  let (seq, w1) := atomicAddUint64 g.counter 1 w
  let s := FormatUint seq 10
  match sliceTo h (12 - (s.length : Int)) with
  | Outcome.panic msg => (Outcome.panic msg, w1)
  | Outcome.ret pad =>
    if pfx.length > 0 then (Outcome.ret (pfx.headD "" ++ g.header ++ pad ++ s), w1)
    else (Outcome.ret (g.header ++ pad ++ s), w1)

/-! ## zap.go -/

/-- The levels `zap.DebugLevel`, ..., `zap.FatalLevel` that zap.go names. -/
inductive zapLevel where
  | DebugLevel
  | InfoLevel
  | WarnLevel
  | ErrorLevel
  | PanicLevel
  | FatalLevel
  deriving DecidableEq, Repr

/-- The fields of `zap.Config` that depend on the arguments of
`NewSimpleLogger`; the encoder configuration is a constant. -/
structure zapConfig where
  Level : zapLevel
  OutputPaths : List String
  ErrorOutputPaths : List String
  Encoding : String
  DisableCaller : Bool
  deriving DecidableEq, Repr

/-- A `*zap.Logger`, known by the configuration it was built from. -/
structure zapLogger where
  config : zapConfig
  deriving DecidableEq, Repr

/-- What the standard library and zap answer to zap.go: `filepath.Dir`, the
error of `os.MkdirAll(dir, 0755)` and the error of `zcfg.Build()` (none for a
nil error). -/
structure Host where
  Dir : String → String
  MkdirAll : String → Option String
  Build : zapConfig → Option String

/-- The `switch level` of `NewSimpleLogger`; none is its `default` branch. -/
def zlevelOf (level : String) : Option zapLevel :=
  match level with
  | "debug" => some zapLevel.DebugLevel
  | "info" => some zapLevel.InfoLevel
  | "warn" => some zapLevel.WarnLevel
  | "error" => some zapLevel.ErrorLevel
  | "panic" => some zapLevel.PanicLevel
  | "fatal" => some zapLevel.FatalLevel
  | _ => none

/-- `NewSimpleLogger(level, outpath, encoding, showCaller)`: the logger, the
error, and the directories that exist after the call (`dirs` before it).
`os.Stat(dir)` reports `os.ErrNotExist` when `dir` is not among them. -/
def NewSimpleLogger (host : Host) (level outpath encoding : String) (showCaller : Bool)
    (dirs : List String) : (Option zapLogger × Option String) × List String :=
  match zlevelOf level with
  | none => ((none, some ("Unexpected log level " ++ level)), dirs)
  | some zlevel =>
    let dir := host.Dir outpath
    let r : Option String × List String :=
      if dir ≠ "." ∧ dir ≠ ".." ∧ dir ≠ "/" then
        if dir ∉ dirs then
          match host.MkdirAll dir with
          | some e => (some e, dirs)
          | none => (none, dir :: dirs)
        else (none, dirs)
      else (none, dirs)
    match r.1 with
    | some e => ((none, some e), r.2)
    | none =>
      let zcfg : zapConfig :=
        { Level := zlevel
          OutputPaths := [outpath]
          ErrorOutputPaths := [outpath]
          Encoding := encoding
          DisableCaller := !showCaller }
      match host.Build zcfg with
      | some e => ((none, some e), r.2)
      | none => ((some { config := zcfg }, none), r.2)

/-! ## Vocabulary of the statements about context.go -/

/-- One `ForkAt` on the same context `c` per location of the list, in the order
of their atomic increments: every call's sequence number and child, and the
store after the last call. -/
def forkAll {L : Type} [Logger L] (c : myContextImpl L) :
    List String → World → List (Nat × myContextImpl L) × World
  | [], w => ([], w)
  | location :: rest, w =>
    let n := c.seq w
    let r := c.ForkAt location w
    let rs := forkAll c rest r.2
    ((n, r.1) :: rs.1, rs.2)

/-- The context `d` in store `w2` uses the counter of `c`, and the step from
`w` to `w2` changed no counter and allocated none. -/
def sharesCounter {L : Type} (c : myContextImpl L) (w : World) (d : myContextImpl L)
    (w2 : World) : Prop :=
  d.tracker = c.tracker ∧ w2.cells = w.cells ∧ w2.nextCell = w.nextCell

/-- The environment of `d` is the node that `c.Env().Fork()` made in store `w`,
and `w2` holds the environment store after that fork. -/
def forksEnv {L : Type} (c : myContextImpl L) (w : World) (d : myContextImpl L)
    (w2 : World) : Prop :=
  d.env = (c.env.Fork w.heap).1 ∧ w2.heap = (c.env.Fork w.heap).2

/-- The decimal form of `n` left-padded with zeros to 12 characters (the
decimal form itself when it is longer). -/
def padded12 (n : Nat) : String :=
  String.mk (List.replicate (12 - (FormatUint n 10).length) '0') ++ FormatUint n 10

/-- The name the spec gives a call: first prefix argument (empty when there is
none), header, padded sequence number. -/
def sessionName (pfx : List String) (header : String) (n : Nat) : String :=
  pfx.headD "" ++ header ++ padded12 n

/-- The value a call of `g` in store `w` gives its local variable `seq`: the
sequence number of the call. -/
def mbase.generator.seq (g : mbase.generator) (w : World) : Nat :=
  (atomicAddUint64 g.counter 1 w).1

/-- One call of the generator `g` per argument list, in order: the results and
the store after the last call. -/
def callAll (g : mbase.generator) : List (List String) → World → List (Outcome String) × World
  | [], w => ([], w)
  | pfx :: rest, w =>
    let r := g.call pfx w
    let rs := callAll g rest r.2
    (r.1 :: rs.1, rs.2)

/-- The value of a decimal digit character. -/
def digitVal (c : Char) : Nat := c.toNat - 48

/-- Reads a decimal numeral. -/
def readDecimal (cs : List Char) (acc : Nat) : Nat :=
  cs.foldl (fun a c => 10 * a + digitVal c) acc

/-! ## Theorems: env.go -/

theorem Float64_eq_eq (a b : Float64) (h : a.eq b = true) : a = b := by
  cases a <;> cases b <;> simp_all [Float64.eq]

theorem keyEq_eq : ∀ (a b : Any), keyEq a b = true → a = b := by
  intro a
  induction a with
  | float64 x =>
    intro b h
    cases b <;> simp_all [keyEq]
    exact Float64_eq_eq _ _ h
  | array1 elem ih =>
    intro b h
    cases b <;> simp_all [keyEq]
    exact ih _ h
  | slice v =>
    intro b h
    cases b <;> simp_all [keyEq]
  | _ =>
    intro b h
    cases b <;> simp_all [keyEq]

theorem keyEq_ne (a b : Any) (h : a ≠ b) : keyEq a b = false := by
  cases hk : keyEq a b
  · rfl
  · exact absurd (keyEq_eq a b hk) h

theorem loadEntries_snd_iff (l : List (Any × Any)) (k : Any) :
    (loadEntries l k).2 = true ↔ ∃ x ∈ l.map Prod.fst, keyEq x k = true := by
  induction l with
  | nil => simp [loadEntries]
  | cons x rest ih =>
    obtain ⟨k0, v0⟩ := x
    cases hk : keyEq k0 k
    · simp [loadEntries, hk, ih]
    · simp [loadEntries, hk]

theorem loadEntries_miss (l : List (Any × Any)) (k : Any)
    (hm : (loadEntries l k).2 = false) : loadEntries l k = (Any.nil, false) := by
  induction l with
  | nil => simp [loadEntries]
  | cons x rest ih =>
    obtain ⟨k0, v0⟩ := x
    cases hk : keyEq k0 k
    · simp only [loadEntries, hk, Bool.false_eq_true, if_false] at hm ⊢
      exact ih hm
    · simp [loadEntries, hk] at hm

theorem loadEntries_store_same (l : List (Any × Any)) (k v : Any) (hr : keyEq k k = true) :
    loadEntries (storeEntries l k v) k = (v, true) := by
  induction l with
  | nil => simp [loadEntries, storeEntries, hr]
  | cons x rest ih =>
    obtain ⟨k0, v0⟩ := x
    cases hk : keyEq k0 k
    · simp [loadEntries, storeEntries, hk, ih]
    · simp [loadEntries, storeEntries, hk, hr]

theorem loadEntries_store_other (l : List (Any × Any)) (k v k1 : Any) (hne : k1 ≠ k) :
    loadEntries (storeEntries l k v) k1 = loadEntries l k1 := by
  have hkk1 : keyEq k k1 = false := keyEq_ne k k1 (fun h => hne h.symm)
  induction l with
  | nil => simp [loadEntries, storeEntries, hkk1]
  | cons x rest ih =>
    obtain ⟨k0, v0⟩ := x
    cases hk : keyEq k0 k
    · cases hk1 : keyEq k0 k1
      · simp [loadEntries, storeEntries, hk, hk1, ih]
      · simp [loadEntries, storeEntries, hk, hk1]
    · have h0 : k0 = k := keyEq_eq k0 k hk
      subst h0
      simp [loadEntries, storeEntries, hk, hkk1]

/-- A key that is not `==` to itself is found in no map. -/
theorem loadEntries_irrefl (l : List (Any × Any)) (k : Any) (hr : keyEq k k = false) :
    loadEntries l k = (Any.nil, false) := by
  apply loadEntries_miss
  cases hl : (loadEntries l k).2
  · rfl
  · obtain ⟨x, _, hx⟩ := (loadEntries_snd_iff l k).1 hl
    have := keyEq_eq x k hx
    subst this
    rw [hr] at hx
    exact Bool.noConfusion hx

theorem mem_storeEntries (l : List (Any × Any)) (k v : Any) : (k, v) ∈ storeEntries l k v := by
  induction l with
  | nil => simp [storeEntries]
  | cons x rest ih =>
    obtain ⟨k0, v0⟩ := x
    cases hk : keyEq k0 k
    · simp [storeEntries, hk, ih]
    · simp [storeEntries, hk]

theorem find_root (a : Nat) (k : Any) (h : Heap) : env.find (.mk none a) k h =
    (if (loadEntries (h.vals a).entries k).2 then ((loadEntries (h.vals a).entries k).1, true)
     else (Any.nil, false)) := by
  simp only [env.find]
  split <;> simp_all

theorem find_child (p : env) (a : Nat) (k : Any) (h : Heap) : env.find (.mk (some p) a) k h =
    (if (loadEntries (h.vals a).entries k).2 then ((loadEntries (h.vals a).entries k).1, true)
     else p.find k h) := by
  simp only [env.find]
  split <;> simp_all

/-- `Get` hashes the key and then looks it up along the chain. -/
theorem Get_eq_find (k : Any) (h : Heap) : ∀ (e : env),
    e.Get k h = if hashable k then Outcome.ret (e.find k h) else Outcome.panic hashPanic
  | .mk none a => by
    cases hh : hashable k
    · simp [env.Get, SyncMap.Load, hh]
    · simp only [env.Get, SyncMap.Load, hh, if_true, find_root]
      split <;> simp_all
  | .mk (some p) a => by
    have ih := Get_eq_find k h p
    cases hh : hashable k
    · simp [env.Get, SyncMap.Load, hh]
    · rw [hh] at ih
      simp only [env.Get, SyncMap.Load, hh, if_true, find_child, ih]
      split <;> simp_all

theorem Get_hashable (e : env) (k : Any) (h : Heap) (hh : hashable k = true) :
    e.Get k h = Outcome.ret (e.find k h) := by
  rw [Get_eq_find, hh]; rfl

theorem Get_unhashable (e : env) (k : Any) (h : Heap) (hh : hashable k = false) :
    e.Get k h = Outcome.panic hashPanic := by
  rw [Get_eq_find, hh]; rfl

theorem find_of_chain (k : Any) (h : Heap) :
    ∀ (e : env) (pre : List Nat) (a : Nat) (post : List Nat) (v : Any),
    e.chain = pre ++ a :: post → (∀ b ∈ pre, (loadEntries (h.vals b).entries k).2 = false) →
    loadEntries (h.vals a).entries k = (v, true) → e.find k h = (v, true)
  | .mk none c, pre, a, post, v, hch, hpre, ha => by
    rw [find_root]
    cases pre with
    | nil =>
      simp only [env.chain, List.nil_append, List.cons.injEq] at hch
      rw [hch.1, ha]; simp
    | cons b pre1 =>
      simp [env.chain] at hch
  | .mk (some p) c, pre, a, post, v, hch, hpre, ha => by
    rw [find_child]
    cases pre with
    | nil =>
      simp only [env.chain, List.nil_append, List.cons.injEq] at hch
      rw [hch.1, ha]; simp
    | cons b pre1 =>
      simp only [env.chain, List.cons_append, List.cons.injEq] at hch
      have hb : (loadEntries (h.vals c).entries k).2 = false := by
        rw [hch.1]; exact hpre b (List.mem_cons_self _ _)
      rw [hb]
      simp only [Bool.false_eq_true, if_false]
      exact find_of_chain k h p pre1 a post v hch.2
        (fun x hx => hpre x (List.mem_cons_of_mem _ hx)) ha

theorem find_miss_iff (k : Any) (h : Heap) : ∀ (e : env),
    e.find k h = (Any.nil, false) ↔ ∀ b ∈ e.chain, (loadEntries (h.vals b).entries k).2 = false
  | .mk none c => by
    rw [find_root]
    by_cases hc : (loadEntries (h.vals c).entries k).2 = true
    · simp [hc, env.chain]
    · simp [hc, env.chain]
  | .mk (some p) c => by
    rw [find_child]
    by_cases hc : (loadEntries (h.vals c).entries k).2 = true
    · simp [hc, env.chain]
    · have ih := find_miss_iff k h p
      simp [hc, env.chain, ih]

theorem find_snd_iff (k : Any) (h : Heap) : ∀ (e : env),
    (e.find k h).2 = true ↔ ∃ b ∈ e.chain, (loadEntries (h.vals b).entries k).2 = true
  | .mk none c => by
    rw [find_root]
    by_cases hc : (loadEntries (h.vals c).entries k).2 = true
    · simp [hc, env.chain]
    · simp [hc, env.chain]
  | .mk (some p) c => by
    have ih := find_snd_iff k h p
    rw [find_child]
    by_cases hc : (loadEntries (h.vals c).entries k).2 = true
    · simp [hc, env.chain]
    · simp [hc, env.chain, ih]

/-- C1, as stated, fails.  With the key `[]int{1}`, which cannot be hashed,
`Get` on a new environment panics in `sync.Map.Load` instead of returning
`(nil, false)`; and after `Set(NaN, 1)` the node holds NaN locally, yet
`Get(NaN)` returns `(nil, false)`, since NaN is `==` to no key. -/
theorem Get_fails_on_key :
    (NewEnv Heap.init).1.Get (Any.slice [1]) (NewEnv Heap.init).2
      = Outcome.panic "runtime error: hash of unhashable type []int" ∧
    ((NewEnv Heap.init).1.Set (Any.float64 Float64.NaN) (Any.int 1) (NewEnv Heap.init).2).1
      = Outcome.ret () ∧
    Any.float64 Float64.NaN ∈
      ((NewEnv Heap.init).1.Set (Any.float64 Float64.NaN) (Any.int 1)
        (NewEnv Heap.init).2).2.localKeys (NewEnv Heap.init).1.vals ∧
    (NewEnv Heap.init).1.Get (Any.float64 Float64.NaN)
        ((NewEnv Heap.init).1.Set (Any.float64 Float64.NaN) (Any.int 1) (NewEnv Heap.init).2).2
      = Outcome.ret (Any.nil, false) := by
  refine ⟨by decide, by decide, by decide, by decide⟩

/-- C1, amended: for a key that can be hashed, `Get` returns `(v, true)` where
`v` is the value of the nearest node of the chain `e`, `e.parent`, ... whose
own map has an entry with a key `==` to the given one, and `(nil, false)`
exactly when no node of the chain has such an entry, as is always the case
for a key that is not `==` to itself; a child's own entry shadows its
parent's, and a key the child's map misses is looked up in the parent.  For a
key that cannot be hashed `Get` panics. -/
theorem Get_nearest (e : env) (k : Any) (h : Heap) :
    (hashable k = false → e.Get k h = Outcome.panic hashPanic) ∧
    (hashable k = true →
      (∀ (pre : List Nat) (a : Nat) (post : List Nat) (v : Any),
        e.chain = pre ++ a :: post →
        (∀ b ∈ pre, (loadEntries (h.vals b).entries k).2 = false) →
        loadEntries (h.vals a).entries k = (v, true) → e.Get k h = Outcome.ret (v, true)) ∧
      (e.Get k h = Outcome.ret (Any.nil, false) ↔
        ∀ b ∈ e.chain, (loadEntries (h.vals b).entries k).2 = false) ∧
      ((∃ x, e.Get k h = Outcome.ret (x, false)) ↔
        ∀ b ∈ e.chain, (loadEntries (h.vals b).entries k).2 = false) ∧
      (keyEq k k = false → e.Get k h = Outcome.ret (Any.nil, false)) ∧
      (∀ (c : Nat) (v : Any), loadEntries (h.vals c).entries k = (v, true) →
        (env.mk (some e) c).Get k h = Outcome.ret (v, true)) ∧
      (∀ (c : Nat), (loadEntries (h.vals c).entries k).2 = false →
        (env.mk (some e) c).Get k h = e.Get k h)) ∧
    (∀ a : Nat, (loadEntries (h.vals a).entries k).2 = true ↔
      ∃ x ∈ h.localKeys a, keyEq x k = true) := by
  refine ⟨Get_unhashable e k h, ?_, fun a => loadEntries_snd_iff _ k⟩
  intro hh
  have hG : ∀ e2 : env, e2.Get k h = Outcome.ret (e2.find k h) :=
    fun e2 => Get_hashable e2 k h hh
  have hmiss := find_miss_iff k h e
  refine ⟨?_, ?_, ?_, ?_, ?_, ?_⟩
  · intro pre a post v hch hpre ha
    rw [hG, find_of_chain k h e pre a post v hch hpre ha]
  · rw [hG]
    constructor
    · intro hr
      injection hr with hr
      exact hmiss.1 hr
    · intro hall
      rw [hmiss.2 hall]
  · rw [hG]
    constructor
    · rintro ⟨x, hx⟩
      injection hx with hx
      intro b hb
      by_contra hc
      have : (e.find k h).2 = true := (find_snd_iff k h e).2 ⟨b, hb, by simpa using hc⟩
      rw [hx] at this
      exact Bool.noConfusion this
    · intro hall
      exact ⟨Any.nil, by rw [hmiss.2 hall]⟩
  · intro hr
    rw [hG, hmiss.2]
    intro b _
    rw [loadEntries_irrefl _ k hr]
  · intro c v hv
    rw [hG, find_child, hv]; simp
  · intro c hc
    rw [hG, hG, find_child, hc]; simp

theorem find_write_other (k : Any) (h : Heap) (a : Nat) (m : SyncMap) : ∀ (e : env),
    a ∉ e.chain → e.find k (h.write a m) = e.find k h
  | .mk none c => by
    intro hn
    have hc : ¬ c = a := by
      intro hca; apply hn; simp [env.chain, hca]
    simp [find_root, Heap.write, hc]
  | .mk (some p) c => by
    intro hn
    have hc : ¬ c = a := by
      intro hca; apply hn; simp [env.chain, hca]
    have hp : a ∉ p.chain := by
      intro hpa; apply hn; simp [env.chain, hpa]
    have ih := find_write_other k h a m p hp
    rw [find_child, find_child, ih]
    simp [Heap.write, hc]

theorem find_set_same (e : env) (k v : Any) (h : Heap) (hr : keyEq k k = true) :
    e.find k (h.write e.vals ⟨storeEntries (h.vals e.vals).entries k v⟩) = (v, true) := by
  cases e with
  | mk parent c =>
    cases parent with
    | none =>
      simp [find_root, Heap.write, env.vals, loadEntries_store_same _ k v hr]
    | some p =>
      simp [find_child, Heap.write, env.vals, loadEntries_store_same _ k v hr]

theorem find_store_other (k v k1 : Any) (h : Heap) (a : Nat) (hne : k1 ≠ k) : ∀ (e : env),
    e.find k1 (h.write a ⟨storeEntries (h.vals a).entries k v⟩) = e.find k1 h
  | .mk none c => by
    rw [find_root, find_root]
    by_cases hc : c = a
    · simp [Heap.write, hc, loadEntries_store_other _ k v k1 hne]
    · simp [Heap.write, hc]
  | .mk (some p) c => by
    have ih := find_store_other k v k1 h a hne p
    rw [find_child, find_child, ih]
    by_cases hc : c = a
    · simp [Heap.write, hc, loadEntries_store_other _ k v k1 hne]
    · simp [Heap.write, hc]

theorem TypeOf_eq_none (k : Any) : TypeOf k = none ↔ k = Any.nil := by
  cases k <;> simp [TypeOf]

theorem validKey_iff (k : Any) :
    validKey k = true ↔ k ≠ Any.nil ∧ ∀ t, TypeOf k = some t → t.Comparable = true := by
  unfold validKey
  cases hT : TypeOf k with
  | none => simp [(TypeOf_eq_none k).1 hT]
  | some t =>
    have hne : k ≠ Any.nil := by
      intro hnil
      rw [(TypeOf_eq_none k).2 hnil] at hT
      exact Option.noConfusion hT
    simp [hne]

/-- `Set` with a key that passes the guards and can be hashed stores it. -/
theorem set_valid (e : env) (k v : Any) (h : Heap) (hk : validKey k = true)
    (hh : hashable k = true) :
    e.Set k v h
      = (Outcome.ret (), h.write e.vals ⟨storeEntries (h.vals e.vals).entries k v⟩) := by
  have hv := (validKey_iff k).1 hk
  unfold env.Set
  cases hT : TypeOf k with
  | none => exact absurd ((TypeOf_eq_none k).1 hT) hv.1
  | some t =>
    have hC := hv.2 t hT
    simp [hv.1, hC, SyncMap.Store, hh]

/-- The store after `Set`, whether it panics or not. -/
theorem set_snd (e : env) (k v : Any) (h : Heap) :
    (e.Set k v h).2 = if validKey k = true ∧ hashable k = true
      then h.write e.vals ⟨storeEntries (h.vals e.vals).entries k v⟩ else h := by
  by_cases hk : validKey k = true
  · cases hh : hashable k
    · have hv := (validKey_iff k).1 hk
      unfold env.Set
      cases hT : TypeOf k with
      | none => exact absurd ((TypeOf_eq_none k).1 hT) hv.1
      | some t =>
        have hC := hv.2 t hT
        simp [hv.1, hC, SyncMap.Store, hh]
    · rw [set_valid e k v h hk hh]
      simp [hk]
  · have hk2 : validKey k = false := by simpa using hk
    simp only [hk2, Bool.false_eq_true, false_and, if_false]
    unfold validKey at hk2
    unfold env.Set
    by_cases hnil : k = Any.nil
    · simp [hnil]
    · cases hT : TypeOf k with
      | none => simp [hnil]
      | some t =>
        rw [hT] at hk2
        simp only at hk2
        simp [hnil, hk2]

/-- C2, as stated, fails for two kinds of non-nil keys of comparable type.
After `Set(NaN, 1)`, which succeeds, `Get(NaN)` returns `(nil, false)`; and
`Set` with the key `[1]interface{}{[]int{1}}` panics in `sync.Map.Store`. -/
theorem Set_Get_fails_on_key :
    validKey (Any.float64 Float64.NaN) = true ∧
    ((NewEnv Heap.init).1.Set (Any.float64 Float64.NaN) (Any.int 1) (NewEnv Heap.init).2).1
      = Outcome.ret () ∧
    (NewEnv Heap.init).1.Get (Any.float64 Float64.NaN)
        ((NewEnv Heap.init).1.Set (Any.float64 Float64.NaN) (Any.int 1) (NewEnv Heap.init).2).2
      = Outcome.ret (Any.nil, false) ∧
    validKey (Any.array1 (Any.slice [1])) = true ∧
    ((NewEnv Heap.init).1.Set (Any.array1 (Any.slice [1])) (Any.int 1) (NewEnv Heap.init).2).1
      = Outcome.panic "runtime error: hash of unhashable type []int" := by
  refine ⟨by decide, by decide, by decide, by decide, by decide⟩

/-- C2, amended: for a non-nil key `k` of comparable type that can be hashed
and is `==` to itself (it holds no value of a type that is not comparable and
no NaN), `e.Set(k, v)` returns and `e.Get(k)` on the same node then returns
`(v, true)`, whatever was stored before; a second `Set` of the key overwrites
the first. -/
theorem Set_Get (e : env) (k v : Any) (h : Heap) (hk : validKey k = true)
    (hh : hashable k = true) (hr : keyEq k k = true) :
    (e.Set k v h).1 = Outcome.ret () ∧
    e.Get k (e.Set k v h).2 = Outcome.ret (v, true) ∧
    (∀ v2 : Any, e.Get k (e.Set k v2 (e.Set k v h).2).2 = Outcome.ret (v2, true)) := by
  refine ⟨by rw [set_valid e k v h hk hh], ?_, ?_⟩
  · rw [set_valid e k v h hk hh, Get_hashable _ k _ hh, find_set_same e k v h hr]
  · intro v2
    rw [set_valid e k v2 _ hk hh, Get_hashable _ k _ hh, find_set_same e k v2 _ hr]

/-- C2 amended, at a concrete input: a child whose parent already holds "x". -/
theorem Set_Get_witness :
    (let r0 := NewEnv Heap.init
     let h1 := (r0.1.Set (Any.string "x") (Any.int 1) r0.2).2
     let r1 := r0.1.Fork h1
     (r1.1.Set (Any.string "x") (Any.int 2) r1.2).1 = Outcome.ret () ∧
     r1.1.Get (Any.string "x") (r1.1.Set (Any.string "x") (Any.int 2) r1.2).2
       = Outcome.ret (Any.int 2, true) ∧
     (∀ v2 : Any, r1.1.Get (Any.string "x")
        (r1.1.Set (Any.string "x") v2 (r1.1.Set (Any.string "x") (Any.int 2) r1.2).2).2
       = Outcome.ret (v2, true))) :=
  Set_Get _ (Any.string "x") (Any.int 2) _ (by decide) (by decide) (by decide)

theorem allocated_lt (e : env) (h : Heap) (hal : e.allocated h = true) :
    ∀ b ∈ e.chain, b < h.next := by
  intro b hb
  unfold env.allocated at hal
  rw [List.all_eq_true] at hal
  simpa using hal b hb

theorem chain_Fork (e : env) (h : Heap) :
    (e.Fork h).1.chain = h.next :: e.chain ∧ (e.Fork h).1.vals = h.next := by
  simp [env.Fork, env.fork, Heap.alloc, env.chain, env.vals]

/-- A node forked from `p` has a map of its own: its location is none of the
chain of `p`, which is part of its own chain. -/
theorem ForkedFrom_fresh (p c : env) (hf : ForkedFrom p c) :
    (∀ b ∈ p.chain, b ∈ c.chain) ∧ c.vals ∉ p.chain := by
  induction hf with
  | child h hal =>
    rw [(chain_Fork p h).1, (chain_Fork p h).2]
    exact ⟨fun b hb => List.mem_cons_of_mem _ hb,
      fun hm => Nat.lt_irrefl _ (allocated_lt p h hal _ hm)⟩
  | deeper c h _ hal ih =>
    rw [(chain_Fork c h).1, (chain_Fork c h).2]
    exact ⟨fun b hb => List.mem_cons_of_mem _ (ih.1 b hb),
      fun hm => Nat.lt_irrefl _ (allocated_lt c h hal _ (ih.1 _ hm))⟩

/-- Two stores in which a node finds the same for a key give the same `Get`. -/
theorem Get_congr (e : env) (k : Any) (h1 h2 : Heap) (hf : e.find k h1 = e.find k h2) :
    e.Get k h1 = e.Get k h2 := by
  rw [Get_eq_find, Get_eq_find, hf]

/-- C3: `Set` writes only the map of the node it is called on.  For every node
`c` obtained from `p` by `Fork`, at any depth, `c.Set(k, v)` in any store leaves
every `p.Get` unchanged, and leaves `c.Get` unchanged for every other key. -/
theorem Set_frame (p c : env) (k v : Any) (h : Heap) (hf : ForkedFrom p c) :
    (∀ k1 : Any, p.Get k1 (c.Set k v h).2 = p.Get k1 h) ∧
    (∀ k1 : Any, k1 ≠ k → c.Get k1 (c.Set k v h).2 = c.Get k1 h) := by
  rw [set_snd]
  by_cases hk : validKey k = true ∧ hashable k = true
  · simp only [hk, and_self, if_true]
    exact ⟨fun k1 => Get_congr _ _ _ _
        (find_write_other k1 h c.vals _ p (ForkedFrom_fresh p c hf).2),
      fun k1 hne => Get_congr _ _ _ _ (find_store_other k v k1 h c.vals hne c)⟩
  · simp [hk]

/-- C3 at a concrete input: a grandchild of a root that holds "x". -/
theorem Set_frame_witness :
    (let r0 := NewEnv Heap.init
     let h1 := (r0.1.Set (Any.string "x") (Any.int 1) r0.2).2
     let r1 := r0.1.Fork h1
     let r2 := r1.1.Fork r1.2
     (∀ k1 : Any, r0.1.Get k1 (r2.1.Set (Any.string "x") (Any.int 2) r2.2).2
        = r0.1.Get k1 r2.2) ∧
     (∀ k1 : Any, k1 ≠ Any.string "x" →
        r2.1.Get k1 (r2.1.Set (Any.string "x") (Any.int 2) r2.2).2 = r2.1.Get k1 r2.2)) :=
  Set_frame _ _ (Any.string "x") (Any.int 2) _
    (ForkedFrom.deeper _ _ (ForkedFrom.child _ (by decide)) (by decide))

/-- C4, as stated, fails: the key `[1]interface{}{[]int{1}}` is not nil and its
type is comparable, so it passes both guards, and `Set` panics in
`sync.Map.Store`. -/
theorem Set_panics_beyond_guards :
    Any.array1 (Any.slice [1]) ≠ Any.nil ∧
    TypeOf (Any.array1 (Any.slice [1])) = some GoType.array1 ∧
    GoType.array1.Comparable = true ∧
    ((NewEnv Heap.init).1.Set (Any.array1 (Any.slice [1])) (Any.int 1) (NewEnv Heap.init).2).1
      = Outcome.panic "runtime error: hash of unhashable type []int" := by
  refine ⟨by decide, by decide, by decide, by decide⟩

/-- C4, amended: `Set` panics exactly when the key is nil, or its dynamic type
is not comparable, or it cannot be hashed because it holds a value of a type
that is not comparable; a panicking `Set` leaves the store as it was, and for
every other key it returns normally having stored the pair in the node's own
map. -/
theorem Set_panics_iff (e : env) (k v : Any) (h : Heap) :
    ((∃ msg, (e.Set k v h).1 = Outcome.panic msg) ↔
      (k = Any.nil ∨ (∃ t, TypeOf k = some t ∧ t.Comparable = false) ∨ hashable k = false)) ∧
    ((∃ msg, (e.Set k v h).1 = Outcome.panic msg) → (e.Set k v h).2 = h) ∧
    (k ≠ Any.nil → (∀ t, TypeOf k = some t → t.Comparable = true) → hashable k = true →
      (e.Set k v h).1 = Outcome.ret () ∧
      (k, v) ∈ ((e.Set k v h).2.vals e.vals).entries ∧
      (keyEq k k = true → ((e.Set k v h).2.vals e.vals).Load k = Outcome.ret (v, true))) := by
  have hstore : k ≠ Any.nil → (∀ t, TypeOf k = some t → t.Comparable = true) →
      hashable k = true →
      e.Set k v h
        = (Outcome.ret (), h.write e.vals ⟨storeEntries (h.vals e.vals).entries k v⟩) :=
    fun h1 h2 h3 => set_valid e k v h ((validKey_iff k).2 ⟨h1, h2⟩) h3
  by_cases hk : k = Any.nil
  · refine ⟨?_, ?_, ?_⟩
    · simp [env.Set, hk]
    · simp [env.Set, hk]
    · intro hne; exact absurd hk hne
  · cases hT : TypeOf k with
    | none => exact absurd ((TypeOf_eq_none k).1 hT) hk
    | some t =>
      cases hC : t.Comparable
      · refine ⟨?_, ?_, ?_⟩
        · simp [env.Set, hT, hC, hk]
        · simp [env.Set, hT, hC, hk]
        · intro _ hall
          have := hall t rfl
          rw [hC] at this; exact Bool.noConfusion this
      · cases hh : hashable k
        · refine ⟨?_, ?_, ?_⟩
          · simp [env.Set, hT, hC, hk, SyncMap.Store, hh]
          · simp [env.Set, hT, hC, hk, SyncMap.Store, hh]
          · intro _ _ hf; exact Bool.noConfusion hf
        · have hs := hstore hk (fun t2 ht2 => by rw [hT] at ht2; injection ht2 with ht2; rw [← ht2]; exact hC) hh
          refine ⟨?_, ?_, ?_⟩
          · rw [hs]; simp [hk, hC, hh]
          · rw [hs]; simp
          · intro _ _ _
            rw [hs]
            refine ⟨rfl, ?_, ?_⟩
            · simp [Heap.write, mem_storeEntries]
            · intro hr
              simp [Heap.write, SyncMap.Load, hh, loadEntries_store_same _ k v hr]

theorem foldl_snoc (l : List Any) : ∀ (init : List Any),
    l.foldl (fun keys k => keys ++ [k]) init = init ++ l := by
  induction l with
  | nil => simp
  | cons x rest ih => intro init; simp [ih]

/-- One step of `keys()`: a key that can be hashed is added unless a key `==`
to it is there. -/
theorem setKey_spec (keys : List Any) (k : Any) (hh : hashable k = true)
    (hp : keys.Pairwise (fun a b => keyEq a b = false)) :
    ∃ ks, setKey keys k = Outcome.ret ks ∧ ks.Pairwise (fun a b => keyEq a b = false) ∧
      ∀ x, x ∈ ks ↔ x ∈ keys ∨ x = k := by
  unfold setKey
  simp only [hh, if_true]
  by_cases ha : keys.any (fun x => keyEq x k) = true
  · refine ⟨keys, by simp [ha], hp, ?_⟩
    intro x
    constructor
    · intro hx; exact Or.inl hx
    · rintro (hx | hx)
      · exact hx
      · subst hx
        rw [List.any_eq_true] at ha
        obtain ⟨y, hy, hyx⟩ := ha
        rw [← keyEq_eq y x hyx]
        exact hy
  · refine ⟨keys ++ [k], by simp [ha], ?_, by simp⟩
    rw [List.pairwise_append]
    refine ⟨hp, by simp, ?_⟩
    intro a haK b hb
    simp only [List.mem_singleton] at hb
    subst hb
    cases hk : keyEq a b
    · rfl
    · exact absurd (List.any_eq_true.2 ⟨a, haK, hk⟩) ha

theorem range_keys (l : List (Any × Any)) : ∀ (keys : List Any),
    (∀ p ∈ l, hashable p.1 = true) → keys.Pairwise (fun a b => keyEq a b = false) →
    ∃ ks, rangeEntries keysVisit l (Outcome.ret keys) = Outcome.ret ks ∧
      ks.Pairwise (fun a b => keyEq a b = false) ∧
      ∀ x, x ∈ ks ↔ x ∈ keys ∨ x ∈ l.map Prod.fst := by
  induction l with
  | nil => intro keys _ hp; exact ⟨keys, rfl, hp, by simp⟩
  | cons e rest ih =>
    intro keys hl hp
    obtain ⟨k0, v0⟩ := e
    obtain ⟨ks1, hs1, hp1, hm1⟩ := setKey_spec keys k0 (hl (k0, v0) (List.mem_cons_self _ _)) hp
    obtain ⟨ks2, hs2, hp2, hm2⟩ := ih ks1 (fun p hpm => hl p (List.mem_cons_of_mem _ hpm)) hp1
    refine ⟨ks2, ?_, hp2, ?_⟩
    · simp only [rangeEntries, keysVisit, hs1, if_true]
      exact hs2
    · intro x
      rw [hm2 x, hm1 x]
      simp only [List.map_cons, List.mem_cons]
      tauto

theorem keys_spec (h : Heap) : ∀ (e : env), e.keysHashable h = true →
    ∃ ks, e.keys h = Outcome.ret ks ∧ ks.Pairwise (fun a b => keyEq a b = false) ∧
      ∀ x, x ∈ ks ↔ ∃ a ∈ e.chain, x ∈ h.localKeys a
  | .mk none c => by
    intro hw
    have hc : ∀ p ∈ (h.vals c).entries, hashable p.1 = true := by
      intro p hp
      simp only [env.keysHashable, env.chain, List.all_cons, List.all_nil, Bool.and_true,
        List.all_eq_true, Heap.localKeys, List.mem_map, forall_exists_index, and_imp] at hw
      exact hw p.1 p hp rfl
    obtain ⟨ks, hs, hp, hm⟩ := range_keys (h.vals c).entries [] hc List.Pairwise.nil
    refine ⟨ks, by simp only [env.keys, SyncMap.Range]; exact hs, hp, ?_⟩
    intro x
    rw [hm x]
    simp [env.chain, Heap.localKeys]
  | .mk (some p) c => by
    intro hw
    simp only [env.keysHashable, env.chain, List.all_cons, Bool.and_eq_true] at hw
    have hc : ∀ q ∈ (h.vals c).entries, hashable q.1 = true := by
      intro q hq
      have := hw.1
      simp only [List.all_eq_true, Heap.localKeys, List.mem_map, forall_exists_index,
        and_imp] at this
      exact this q.1 q hq rfl
    obtain ⟨ks0, hs0, hp0, hm0⟩ := keys_spec h p hw.2
    obtain ⟨ks, hs, hp, hm⟩ := range_keys (h.vals c).entries ks0 hc hp0
    refine ⟨ks, by simp only [env.keys, hs0, SyncMap.Range]; exact hs, hp, ?_⟩
    intro x
    rw [hm x, hm0 x]
    simp only [env.chain, List.mem_cons, exists_eq_or_imp, Heap.localKeys]
    constructor
    · rintro (hx | hx)
      · exact Or.inr hx
      · exact Or.inl hx
    · rintro (hx | hx)
      · exact Or.inr hx
      · exact Or.inl hx

theorem count_le_one_of_pairwise (k : Any) (hr : keyEq k k = true) :
    ∀ (l : List Any), l.Pairwise (fun a b => keyEq a b = false) → l.count k ≤ 1
  | [], _ => by simp
  | a :: t, hp => by
    rw [List.pairwise_cons] at hp
    have ih := count_le_one_of_pairwise k hr t hp.2
    by_cases hak : a = k
    · subst hak
      have : List.count a t = 0 := by
        rw [List.count_eq_zero]
        intro hmem
        have := hp.1 a hmem
        rw [hr] at this
        exact Bool.noConfusion this
      simp [this]
    · rw [List.count_cons_of_ne (fun h => hak h.symm)]
      exact ih

/-- C5, as stated, fails for a NaN key: after two `Set(NaN, ..)` on a new
environment `Keys()` lists NaN twice, and `Has(NaN)` is false. -/
theorem Keys_lists_NaN_twice :
    (let r0 := NewEnv Heap.init
     let h1 := (r0.1.Set (Any.float64 Float64.NaN) (Any.int 1) r0.2).2
     let h2 := (r0.1.Set (Any.float64 Float64.NaN) (Any.int 2) h1).2
     r0.1.Keys h2 = Outcome.ret [Any.float64 Float64.NaN, Any.float64 Float64.NaN] ∧
     r0.1.Has (Any.float64 Float64.NaN) h2 = Outcome.ret false) := by
  decide

/-- C5, amended: in a store whose maps hold only keys that can be hashed (as
`Set` ensures), `Keys()` returns a list of which no two entries are `==`, so
it lists a key that is `==` to itself at most once; it lists exactly the keys
stored locally at the node and at its ancestors; and for a key `k` that can be
hashed `Has(k)` is true if and only if `Keys()` lists a key `==` to `k`, which
for a key `==` to itself means that it lists `k`.  (`Has` panics on a key that
cannot be hashed.) -/
theorem Keys_spec (e : env) (h : Heap) (hw : e.keysHashable h = true) :
    ∃ ks, e.Keys h = Outcome.ret ks ∧
      ks.Pairwise (fun a b => keyEq a b = false) ∧
      (∀ k : Any, keyEq k k = true → ks.count k ≤ 1) ∧
      (∀ k : Any, k ∈ ks ↔ ∃ a ∈ e.chain, k ∈ h.localKeys a) ∧
      (∀ k : Any, hashable k = true →
        (e.Has k h = Outcome.ret true ∨ e.Has k h = Outcome.ret false) ∧
        (e.Has k h = Outcome.ret true ↔ ∃ x ∈ ks, keyEq x k = true)) ∧
      (∀ k : Any, hashable k = true → keyEq k k = true →
        (k ∈ ks ↔ e.Has k h = Outcome.ret true)) ∧
      (∀ k : Any, hashable k = false → e.Has k h = Outcome.panic hashPanic) := by
  obtain ⟨ks, hs, hp, hm⟩ := keys_spec h e hw
  have hHas : ∀ k : Any, hashable k = true →
      (e.Has k h = Outcome.ret true ↔ ∃ x ∈ ks, keyEq x k = true) := by
    intro k hh
    have hH : e.Has k h = Outcome.ret (e.find k h).2 := by
      simp only [env.Has, Get_hashable e k h hh]
    rw [hH]
    constructor
    · intro ht
      injection ht with ht
      obtain ⟨b, hb, hl⟩ := (find_snd_iff k h e).1 ht
      obtain ⟨x, hx, hxk⟩ := (loadEntries_snd_iff _ k).1 hl
      exact ⟨x, (hm x).2 ⟨b, hb, hx⟩, hxk⟩
    · rintro ⟨x, hx, hxk⟩
      obtain ⟨b, hb, hxb⟩ := (hm x).1 hx
      have : (e.find k h).2 = true :=
        (find_snd_iff k h e).2 ⟨b, hb, (loadEntries_snd_iff _ k).2 ⟨x, hxb, hxk⟩⟩
      rw [this]
  refine ⟨ks, by simp [env.Keys, hs, foldl_snoc], hp,
    fun k hr => count_le_one_of_pairwise k hr ks hp, hm, ?_, ?_, ?_⟩
  · intro k hh
    refine ⟨?_, hHas k hh⟩
    have hH : e.Has k h = Outcome.ret (e.find k h).2 := by
      simp only [env.Has, Get_hashable e k h hh]
    rw [hH]
    cases (e.find k h).2
    · exact Or.inr rfl
    · exact Or.inl rfl
  · intro k hh hr
    rw [hHas k hh]
    constructor
    · intro hk; exact ⟨k, hk, hr⟩
    · rintro ⟨x, hx, hxk⟩
      rw [← keyEq_eq x k hxk]; exact hx
  · intro k hh
    simp only [env.Has, Get_unhashable e k h hh]

/-- C5 amended, at a concrete input: a child and its parent both hold "x". -/
theorem Keys_spec_witness :
    (let r0 := NewEnv Heap.init
     let h1 := (r0.1.Set (Any.string "x") (Any.int 1) r0.2).2
     let r1 := r0.1.Fork h1
     let h2 := (r1.1.Set (Any.string "x") (Any.int 2) r1.2).2
     let h3 := (r1.1.Set (Any.string "y") (Any.int 3) h2).2
     ∃ ks, r1.1.Keys h3 = Outcome.ret ks ∧ ks.count (Any.string "x") ≤ 1 ∧
       (Any.string "y" ∈ ks ↔ r1.1.Has (Any.string "y") h3 = Outcome.ret true)) := by
  obtain ⟨ks, h1, _, h3, _, _, h6, _⟩ :=
    Keys_spec
      ((NewEnv Heap.init).1.Fork
        ((NewEnv Heap.init).1.Set (Any.string "x") (Any.int 1) (NewEnv Heap.init).2).2).1
      (((NewEnv Heap.init).1.Fork
        ((NewEnv Heap.init).1.Set (Any.string "x") (Any.int 1) (NewEnv Heap.init).2).2).1.Set
        (Any.string "y") (Any.int 3)
        (((NewEnv Heap.init).1.Fork
          ((NewEnv Heap.init).1.Set (Any.string "x") (Any.int 1) (NewEnv Heap.init).2).2).1.Set
          (Any.string "x") (Any.int 2)
          ((NewEnv Heap.init).1.Fork
            ((NewEnv Heap.init).1.Set (Any.string "x") (Any.int 1)
              (NewEnv Heap.init).2).2).2).2).2
      (by decide)
  exact ⟨ks, h1, h3 _ (by decide), h6 _ (by decide) (by decide)⟩

theorem storeEntries_keys (l : List (Any × Any)) (k v x : Any)
    (hx : x ∈ (storeEntries l k v).map Prod.fst) : x ∈ l.map Prod.fst ∨ x = k := by
  induction l with
  | nil => simp [storeEntries] at hx; exact Or.inr hx
  | cons e rest ih =>
    obtain ⟨k0, v0⟩ := e
    cases hk : keyEq k0 k
    · simp only [storeEntries, hk, Bool.false_eq_true, if_false, List.map_cons,
        List.mem_cons] at hx ⊢
      rcases hx with hx | hx
      · exact Or.inl (Or.inl hx)
      · rcases ih hx with h1 | h1
        · exact Or.inl (Or.inr h1)
        · exact Or.inr h1
    · simp only [storeEntries, hk, if_true, List.map_cons, List.mem_cons] at hx ⊢
      rcases hx with hx | hx
      · exact Or.inr hx
      · exact Or.inl (Or.inr hx)

theorem keysHashable_iff (e : env) (h : Heap) :
    e.keysHashable h = true ↔ ∀ a ∈ e.chain, ∀ x ∈ h.localKeys a, hashable x = true := by
  simp [env.keysHashable, List.all_eq_true]

/-- `Set` keeps the stored keys hashable. -/
theorem keysHashable_Set (e e2 : env) (k v : Any) (h : Heap)
    (hw : e2.keysHashable h = true) : e2.keysHashable (e.Set k v h).2 = true := by
  rw [set_snd]
  by_cases hk : validKey k = true ∧ hashable k = true
  · simp only [hk, and_self, if_true]
    rw [keysHashable_iff] at hw ⊢
    intro a ha x hx
    by_cases hae : a = e.vals
    · subst hae
      simp only [Heap.localKeys, Heap.write, if_true] at hx
      rcases storeEntries_keys _ k v x hx with h1 | h1
      · exact hw _ ha x h1
      · rw [h1]; exact hk.2
    · simp only [Heap.localKeys, Heap.write, hae, if_false] at hx
      exact hw a ha x hx
  · simp only [hk, if_false]
    exact hw

/-- `NewEnv` and `Fork` make a node with an empty map. -/
theorem keysHashable_NewEnv (h : Heap) : (NewEnv h).1.keysHashable (NewEnv h).2 = true := by
  simp [NewEnv, Heap.alloc, env.keysHashable, env.chain, Heap.localKeys, SyncMap.empty]

theorem keysHashable_Fork (e : env) (h : Heap) (hw : e.keysHashable h = true)
    (hal : e.allocated h = true) : (e.Fork h).1.keysHashable (e.Fork h).2 = true := by
  rw [keysHashable_iff] at hw ⊢
  intro a ha x hx
  rw [(chain_Fork e h).1] at ha
  have h2 : (e.Fork h).2 = h.alloc.2 := rfl
  rw [h2] at hx
  rcases List.mem_cons.1 ha with ha | ha
  · subst ha
    simp [Heap.localKeys, Heap.alloc, SyncMap.empty] at hx
  · have hne : a ≠ h.next := by
      have := allocated_lt e h hal a ha
      omega
    simp only [Heap.localKeys, Heap.alloc, hne, if_false] at hx
    exact hw a ha x hx

/-- C6, as stated, fails: after `env.Set("x", "hello")` on a new environment,
`env.GetInt("x")` panics in the type assertion instead of returning
`(0, false)`. -/
theorem GetInt_soft_miss_fails :
    (NewEnv Heap.init).1.GetInt (Any.string "x")
        ((NewEnv Heap.init).1.Set (Any.string "x") (Any.string "hello") (NewEnv Heap.init).2).2
      = Outcome.panic "interface conversion: interface \x7b\x7d is string, not int" ∧
    (NewEnv Heap.init).1.GetInt (Any.string "x")
        ((NewEnv Heap.init).1.Set (Any.string "x") (Any.string "hello") (NewEnv Heap.init).2).2
      ≠ Outcome.ret (0, false) := by
  constructor
  · decide
  · decide

theorem GetInt_spec : getterSpec env.GetInt Any.int 0 GoType.int "int" := by
  intro e k h
  refine ⟨?_, ?_, ?_, ?_, ?_⟩
  · intro msg hg; simp [env.GetInt, hg]
  · intro x hg; simp [env.GetInt, hg]
  · intro v hg; simp [env.GetInt, hg]
  · intro x hg ht
    cases x <;> simp [env.GetInt, hg, TypeOf] at ht ⊢
  · intro x ht
    cases x <;> simp [TypeOf] at ht ⊢

theorem GetInt64_spec : getterSpec env.GetInt64 Any.int64 0 GoType.int64 "int64" := by
  intro e k h
  refine ⟨?_, ?_, ?_, ?_, ?_⟩
  · intro msg hg; simp [env.GetInt64, hg]
  · intro x hg; simp [env.GetInt64, hg]
  · intro v hg; simp [env.GetInt64, hg]
  · intro x hg ht
    cases x <;> simp [env.GetInt64, hg, TypeOf] at ht ⊢
  · intro x ht
    cases x <;> simp [TypeOf] at ht ⊢

theorem GetUint_spec : getterSpec env.GetUint Any.uint 0 GoType.uint "uint" := by
  intro e k h
  refine ⟨?_, ?_, ?_, ?_, ?_⟩
  · intro msg hg; simp [env.GetUint, hg]
  · intro x hg; simp [env.GetUint, hg]
  · intro v hg; simp [env.GetUint, hg]
  · intro x hg ht
    cases x <;> simp [env.GetUint, hg, TypeOf] at ht ⊢
  · intro x ht
    cases x <;> simp [TypeOf] at ht ⊢

theorem GetUint64_spec : getterSpec env.GetUint64 Any.uint64 0 GoType.uint64 "uint64" := by
  intro e k h
  refine ⟨?_, ?_, ?_, ?_, ?_⟩
  · intro msg hg; simp [env.GetUint64, hg]
  · intro x hg; simp [env.GetUint64, hg]
  · intro v hg; simp [env.GetUint64, hg]
  · intro x hg ht
    cases x <;> simp [env.GetUint64, hg, TypeOf] at ht ⊢
  · intro x ht
    cases x <;> simp [TypeOf] at ht ⊢

theorem GetFloat64_spec :
    getterSpec env.GetFloat64 Any.float64 (Float64.num 0) GoType.float64 "float64" := by
  intro e k h
  refine ⟨?_, ?_, ?_, ?_, ?_⟩
  · intro msg hg; simp [env.GetFloat64, hg]
  · intro x hg; simp [env.GetFloat64, hg]
  · intro v hg; simp [env.GetFloat64, hg]
  · intro x hg ht
    cases x <;> simp [env.GetFloat64, hg, TypeOf] at ht ⊢
  · intro x ht
    cases x <;> simp [TypeOf] at ht ⊢

theorem GetBool_spec : getterSpec env.GetBool Any.bool false GoType.bool "bool" := by
  intro e k h
  refine ⟨?_, ?_, ?_, ?_, ?_⟩
  · intro msg hg; simp [env.GetBool, hg]
  · intro x hg; simp [env.GetBool, hg]
  · intro v hg; simp [env.GetBool, hg]
  · intro x hg ht
    cases x <;> simp [env.GetBool, hg, TypeOf] at ht ⊢
  · intro x ht
    cases x <;> simp [TypeOf] at ht ⊢

theorem GetString_spec : getterSpec env.GetString Any.string "" GoType.string "string" := by
  intro e k h
  refine ⟨?_, ?_, ?_, ?_, ?_⟩
  · intro msg hg; simp [env.GetString, hg]
  · intro x hg; simp [env.GetString, hg]
  · intro v hg; simp [env.GetString, hg]
  · intro x hg ht
    cases x <;> simp [env.GetString, hg, TypeOf] at ht ⊢
  · intro x ht
    cases x <;> simp [TypeOf] at ht ⊢

theorem GetNetIPAddr_spec :
    getterSpec env.GetNetIPAddr Any.netipAddr 0 GoType.netipAddr "netip.Addr" := by
  intro e k h
  refine ⟨?_, ?_, ?_, ?_, ?_⟩
  · intro msg hg; simp [env.GetNetIPAddr, hg]
  · intro x hg; simp [env.GetNetIPAddr, hg]
  · intro v hg; simp [env.GetNetIPAddr, hg]
  · intro x hg ht
    cases x <;> simp [env.GetNetIPAddr, hg, TypeOf] at ht ⊢
  · intro x ht
    cases x <;> simp [TypeOf] at ht ⊢

theorem GetNetIPAddrPort_spec :
    getterSpec env.GetNetIPAddrPort Any.netipAddrPort 0 GoType.netipAddrPort
      "netip.AddrPort" := by
  intro e k h
  refine ⟨?_, ?_, ?_, ?_, ?_⟩
  · intro msg hg; simp [env.GetNetIPAddrPort, hg]
  · intro x hg; simp [env.GetNetIPAddrPort, hg]
  · intro v hg; simp [env.GetNetIPAddrPort, hg]
  · intro x hg ht
    cases x <;> simp [env.GetNetIPAddrPort, hg, TypeOf] at ht ⊢
  · intro x ht
    cases x <;> simp [TypeOf] at ht ⊢

theorem GetNetIPPrefix_spec :
    getterSpec env.GetNetIPPrefix Any.netipPrefix 0 GoType.netipPrefix "netip.Prefix" := by
  intro e k h
  refine ⟨?_, ?_, ?_, ?_, ?_⟩
  · intro msg hg; simp [env.GetNetIPPrefix, hg]
  · intro x hg; simp [env.GetNetIPPrefix, hg]
  · intro v hg; simp [env.GetNetIPPrefix, hg]
  · intro x hg ht
    cases x <;> simp [env.GetNetIPPrefix, hg, TypeOf] at ht ⊢
  · intro x ht
    cases x <;> simp [TypeOf] at ht ⊢

theorem GetTime_spec : getterSpec env.GetTime Any.time 0 GoType.time "time.Time" := by
  intro e k h
  refine ⟨?_, ?_, ?_, ?_, ?_⟩
  · intro msg hg; simp [env.GetTime, hg]
  · intro x hg; simp [env.GetTime, hg]
  · intro v hg; simp [env.GetTime, hg]
  · intro x hg ht
    cases x <;> simp [env.GetTime, hg, TypeOf] at ht ⊢
  · intro x ht
    cases x <;> simp [TypeOf] at ht ⊢

theorem GetDuration_spec :
    getterSpec env.GetDuration Any.duration 0 GoType.duration "time.Duration" := by
  intro e k h
  refine ⟨?_, ?_, ?_, ?_, ?_⟩
  · intro msg hg; simp [env.GetDuration, hg]
  · intro x hg; simp [env.GetDuration, hg]
  · intro v hg; simp [env.GetDuration, hg]
  · intro x hg ht
    cases x <;> simp [env.GetDuration, hg, TypeOf] at ht ⊢
  · intro x ht
    cases x <;> simp [TypeOf] at ht ⊢

/-- C6, amended: a typed getter panics on a type mismatch.  Each of the twelve
getters passes on a panic of `Get` (a key that cannot be hashed), returns
`(zero value, false)` when `Get` misses, returns `(v, true)` when the visible
value `v` has the requested type, and panics in its type assertion when the
visible value has any other dynamic type; so after `e.Set("x", "hello")` on
any node, `e.GetInt("x")` panics. -/
theorem typed_getter_mismatch_panics :
    getterSpec env.GetInt Any.int 0 GoType.int "int" ∧
    getterSpec env.GetInt64 Any.int64 0 GoType.int64 "int64" ∧
    getterSpec env.GetUint Any.uint 0 GoType.uint "uint" ∧
    getterSpec env.GetUint64 Any.uint64 0 GoType.uint64 "uint64" ∧
    getterSpec env.GetFloat64 Any.float64 (Float64.num 0) GoType.float64 "float64" ∧
    getterSpec env.GetBool Any.bool false GoType.bool "bool" ∧
    getterSpec env.GetString Any.string "" GoType.string "string" ∧
    getterSpec env.GetNetIPAddr Any.netipAddr 0 GoType.netipAddr "netip.Addr" ∧
    getterSpec env.GetNetIPAddrPort Any.netipAddrPort 0 GoType.netipAddrPort "netip.AddrPort" ∧
    getterSpec env.GetNetIPPrefix Any.netipPrefix 0 GoType.netipPrefix "netip.Prefix" ∧
    getterSpec env.GetTime Any.time 0 GoType.time "time.Time" ∧
    getterSpec env.GetDuration Any.duration 0 GoType.duration "time.Duration" ∧
    (∀ (e : env) (h : Heap),
      e.GetInt (Any.string "x") (e.Set (Any.string "x") (Any.string "hello") h).2
        = Outcome.panic "interface conversion: interface \x7b\x7d is string, not int") := by
  refine ⟨GetInt_spec, GetInt64_spec, GetUint_spec, GetUint64_spec, GetFloat64_spec,
    GetBool_spec, GetString_spec, GetNetIPAddr_spec, GetNetIPAddrPort_spec,
    GetNetIPPrefix_spec, GetTime_spec, GetDuration_spec, ?_⟩
  intro e h
  have hg : e.Get (Any.string "x") (e.Set (Any.string "x") (Any.string "hello") h).2
      = Outcome.ret (Any.string "hello", true) := by
    rw [set_valid e _ _ h (by decide) (by decide), Get_hashable _ _ _ (by decide),
      find_set_same e _ _ h (by decide)]
  simp only [env.GetInt, hg]
  decide
/-! ## Theorems: context.go -/

theorem digitVal_digitChar (m : Nat) (hm : m < 10) : digitVal (Nat.digitChar m) = m := by
  interval_cases m <;> rfl

theorem readDecimal_toDigitsCore : ∀ (fuel n : Nat) (ds : List Char), n < fuel →
    readDecimal (Nat.toDigitsCore 10 fuel n ds) 0 = readDecimal ds n := by
  intro fuel
  induction fuel with
  | zero => intro n ds h; omega
  | succ f ih =>
    intro n ds h
    simp only [Nat.toDigitsCore]
    split
    · rename_i h0
      have hn : n < 10 := by omega
      simp [readDecimal, digitVal_digitChar n hn, Nat.mod_eq_of_lt hn]
    · rename_i h0
      have hlt : n / 10 < f := by omega
      rw [ih (n / 10) _ hlt]
      simp only [readDecimal, List.foldl_cons,
        digitVal_digitChar _ (Nat.mod_lt n (by norm_num : 10 > 0))]
      congr 1
      omega

theorem FormatUint_injective (a b : Nat) (h : FormatUint a 10 = FormatUint b 10) : a = b := by
  unfold FormatUint at h
  have h2 : Nat.toDigits 10 a = Nat.toDigits 10 b := by
    injection h
  have ha := readDecimal_toDigitsCore (a + 1) a [] (Nat.lt_succ_self a)
  have hb := readDecimal_toDigitsCore (b + 1) b [] (Nat.lt_succ_self b)
  unfold Nat.toDigits at h2
  rw [h2, hb] at ha
  simpa [readDecimal] using ha.symm


theorem seq_eq {L : Type} (c : myContextImpl L) (w : World) :
    c.seq w = (w.cells c.tracker + 1) % 2 ^ 64 := rfl

theorem ForkAt_logger {L : Type} [Logger L] (c : myContextImpl L) (loc : String) (w : World) :
    (c.ForkAt loc w).1.logger = Logger.Fork c.logger (FormatUint (c.seq w) 10) loc := rfl

theorem ForkAt_tracker {L : Type} [Logger L] (c : myContextImpl L) (loc : String) (w : World) :
    (c.ForkAt loc w).1.tracker = w.nextCell := rfl

theorem ForkAt_nextCell {L : Type} [Logger L] (c : myContextImpl L) (loc : String) (w : World) :
    (c.ForkAt loc w).2.nextCell = w.nextCell + 1 := rfl

theorem ForkAt_cells {L : Type} [Logger L] (c : myContextImpl L) (loc : String) (w : World)
    (a : Nat) : (c.ForkAt loc w).2.cells a =
      if a = w.nextCell then 0 else if a = c.tracker then c.seq w else w.cells a := rfl

theorem forkAll_length {L : Type} [Logger L] (c : myContextImpl L) :
    ∀ (locs : List String) (w : World), (forkAll c locs w).1.length = locs.length
  | [], w => rfl
  | loc :: rest, w => by
    simp only [forkAll, List.length_cons]
    rw [forkAll_length c rest]

theorem forkAll_nextCell {L : Type} [Logger L] (c : myContextImpl L) :
    ∀ (locs : List String) (w : World), (forkAll c locs w).2.nextCell = w.nextCell + locs.length
  | [], w => rfl
  | loc :: rest, w => by
    simp only [forkAll, List.length_cons]
    rw [forkAll_nextCell c rest, ForkAt_nextCell]
    omega

/-- Cells that are allocated and are not the counter of `c` keep their value. -/
theorem forkAll_cells_other {L : Type} [Logger L] (c : myContextImpl L) (a : Nat) :
    ∀ (locs : List String) (w : World), a < w.nextCell → a ≠ c.tracker →
      (forkAll c locs w).2.cells a = w.cells a
  | [], w, _, _ => rfl
  | loc :: rest, w, ha, hne => by
    simp only [forkAll]
    rw [forkAll_cells_other c a rest _ (by rw [ForkAt_nextCell]; omega) hne, ForkAt_cells]
    have h1 : a ≠ w.nextCell := by omega
    simp [h1, hne]

/-- The sequence numbers the calls draw, from the value of the counter. -/
theorem forkAll_seqs {L : Type} [Logger L] (c : myContextImpl L) :
    ∀ (locs : List String) (w : World), c.tracker < w.nextCell →
      (forkAll c locs w).1.map Prod.fst
        = (List.range locs.length).map (fun k => (w.cells c.tracker + k + 1) % 2 ^ 64)
  | [], w, _ => by simp [forkAll]
  | loc :: rest, w, ha => by
    have h1 : c.tracker ≠ w.nextCell := by omega
    have ih := forkAll_seqs c rest (c.ForkAt loc w).2 (by rw [ForkAt_nextCell]; omega)
    rw [ForkAt_cells] at ih
    simp only [h1, if_false, if_true, seq_eq] at ih
    simp only [forkAll, List.map_cons, List.length_cons, List.range_succ_eq_map, ih,
      List.map_map, seq_eq]
    congr 1
    apply List.map_congr_left
    intro k _
    simp only [Function.comp, Nat.succ_eq_add_one]
    omega

/-- The call number `k + 1`: its sequence number and the logger of its child. -/
theorem forkAll_get {L : Type} [Logger L] (c : myContextImpl L) :
    ∀ (locs : List String) (w : World) (k : Nat) (loc : String), c.tracker < w.nextCell →
      locs[k]? = some loc →
      ∃ child, (forkAll c locs w).1[k]? = some ((w.cells c.tracker + k + 1) % 2 ^ 64, child) ∧
        child.logger
          = Logger.Fork c.logger (FormatUint ((w.cells c.tracker + k + 1) % 2 ^ 64) 10) loc
  | [], w, k, loc, _, hk => by simp at hk
  | l0 :: rest, w, 0, loc, _, hk => by
    simp only [List.getElem?_cons_zero, Option.some.injEq] at hk
    subst hk
    exact ⟨(c.ForkAt l0 w).1, by simp [forkAll, seq_eq], by rw [ForkAt_logger, seq_eq]⟩
  | l0 :: rest, w, k + 1, loc, ha, hk => by
    have h1 : c.tracker ≠ w.nextCell := by omega
    simp only [List.getElem?_cons_succ] at hk
    obtain ⟨child, hc1, hc2⟩ :=
      forkAll_get c rest (c.ForkAt l0 w).2 k loc (by rw [ForkAt_nextCell]; omega) hk
    rw [ForkAt_cells] at hc1 hc2
    simp only [h1, if_false, if_true, seq_eq] at hc1 hc2
    have he : ((w.cells c.tracker + 1) % 2 ^ 64 + k + 1) % 2 ^ 64
        = (w.cells c.tracker + (k + 1) + 1) % 2 ^ 64 := by omega
    rw [he] at hc1 hc2
    exact ⟨child, by simp only [forkAll, List.getElem?_cons_succ]; exact hc1, hc2⟩

/-- C7, as stated, fails for N = 2^64: the counter is a `uint64`, so on a
context with a fresh counter the call number 2^64 draws 0, not 2^64. -/
theorem ForkAt_sequence_wraps :
    ((forkAll (Named "root" World.init : myContextImpl logger × World).1
        (List.replicate (2 ^ 64) "")
        (Named "root" World.init : myContextImpl logger × World).2).1.map Prod.fst)[2 ^ 64 - 1]?
      = some 0 ∧
    ((forkAll (Named "root" World.init : myContextImpl logger × World).1
        (List.replicate (2 ^ 64) "")
        (Named "root" World.init : myContextImpl logger × World).2).1.map Prod.fst)[2 ^ 64 - 1]?
      ≠ some (2 ^ 64) := by
  rw [forkAll_seqs _ _ _ (by decide), List.length_replicate, List.getElem?_map,
    List.getElem?_range (by norm_num)]
  constructor <;> decide

/-- C7, amended: on a context with a fresh counter, N < 2^64 `ForkAt`/`Fork`
calls, in the order of their atomic increments, draw 1, 2, ..., N: the k-th
call draws k and passes the decimal form of k to the logger as the name of its
child, and the N name segments are pairwise distinct. -/
theorem ForkAt_sequence {L : Type} [Logger L] (c : myContextImpl L) (w : World)
    (locs : List String) (hfresh : w.cells c.tracker = 0) (halloc : c.tracker < w.nextCell)
    (hN : locs.length < 2 ^ 64) :
    (forkAll c locs w).1.map Prod.fst = (List.range locs.length).map (fun k => k + 1) ∧
    (∀ (k : Nat) (loc : String), locs[k]? = some loc →
      ∃ child, (forkAll c locs w).1[k]? = some (k + 1, child) ∧
        child.logger = Logger.Fork c.logger (FormatUint (k + 1) 10) loc) ∧
    ((forkAll c locs w).1.map (fun p => FormatUint p.1 10)).Nodup ∧
    c.Fork w = c.ForkAt "" w := by
  have hs : (forkAll c locs w).1.map Prod.fst = (List.range locs.length).map (fun k => k + 1) := by
    rw [forkAll_seqs c locs w halloc, hfresh]
    apply List.map_congr_left
    intro k hk
    rw [List.mem_range] at hk
    simp only [Nat.zero_add]
    exact Nat.mod_eq_of_lt (by omega)
  refine ⟨hs, ?_, ?_, rfl⟩
  · intro k loc hk
    have hlt : k < locs.length := by
      rcases Nat.lt_or_ge k locs.length with h | h
      · exact h
      · rw [List.getElem?_eq_none h] at hk; exact Option.noConfusion hk
    obtain ⟨child, hc1, hc2⟩ := forkAll_get c locs w k loc halloc hk
    have he : (w.cells c.tracker + k + 1) % 2 ^ 64 = k + 1 := by
      rw [hfresh, Nat.zero_add]; exact Nat.mod_eq_of_lt (by omega)
    rw [he] at hc1 hc2
    exact ⟨child, hc1, hc2⟩
  · have hm : (forkAll c locs w).1.map (fun p => FormatUint p.1 10)
        = ((forkAll c locs w).1.map Prod.fst).map (fun n => FormatUint n 10) := by
      rw [List.map_map]; rfl
    rw [hm, hs, List.map_map]
    apply List.Nodup.map _ (List.nodup_range _)
    intro a b hab
    have := FormatUint_injective (a + 1) (b + 1) hab
    omega

/-- C7 amended, at a concrete input: five forks of a new root. -/
theorem ForkAt_sequence_witness :
    (forkAll (Named "root" World.init : myContextImpl logger × World).1 ["", "a", "", "b", ""]
        (Named "root" World.init : myContextImpl logger × World).2).1.map Prod.fst
      = [1, 2, 3, 4, 5] :=
  (ForkAt_sequence (Named "root" World.init : myContextImpl logger × World).1
    (Named "root" World.init : myContextImpl logger × World).2 ["", "a", "", "b", ""]
    (by decide) (by decide) (by decide)).1

/-- C8, as stated, fails: `ForkAt` formats the sequence number without padding.
Sequence 7 gives "7", the first fork of an unnamed root is named "1", and three
successive `ForkAt("")` on a fresh root named "root" are named "root1",
"root2", "root3". -/
theorem ForkAt_name_not_padded :
    FormatUint 7 10 = "7" ∧ FormatUint 7 10 ≠ "000000000007" ∧
    ((Named "" World.init : myContextImpl logger × World).1.ForkAt ""
      (Named "" World.init : myContextImpl logger × World).2).1.Name = "1" ∧
    (forkAll (Named "root" World.init : myContextImpl logger × World).1 ["", "", ""]
        (Named "root" World.init : myContextImpl logger × World).2).1.map (fun p => p.2.Name)
      = ["root1", "root2", "root3"] ∧
    (forkAll (Named "root" World.init : myContextImpl logger × World).1 ["", "", ""]
        (Named "root" World.init : myContextImpl logger × World).2).1.map (fun p => p.2.Name)
      ≠ ["root000000000001", "root000000000002", "root000000000003"] := by
  refine ⟨by decide, by decide, by decide, by decide, by decide⟩

/-- C8, amended: `ForkAt` formats the sequence number it draws with
`strconv.FormatUint(seq, 10)`, the decimal form without padding, and passes it
to the logger's `Fork` as the name of the child (sequence 7 gives "7"); with
names chained by direct concatenation, three successive `ForkAt("")` on a
fresh root named "root" yield "root1", "root2", "root3". -/
theorem ForkAt_name {L : Type} [Logger L] (c : myContextImpl L) (location : String)
    (w : World) :
    (c.ForkAt location w).1.logger
      = Logger.Fork c.logger (FormatUint ((w.cells c.tracker + 1) % 2 ^ 64) 10) location ∧
    (∀ n : Nat, readDecimal (FormatUint n 10).data 0 = n) ∧
    FormatUint 7 10 = "7" ∧
    (forkAll (Named "root" World.init : myContextImpl logger × World).1 ["", "", ""]
        (Named "root" World.init : myContextImpl logger × World).2).1.map (fun p => p.2.Name)
      = ["root1", "root2", "root3"] := by
  refine ⟨rfl, fun n => ?_, by decide, by decide⟩
  exact readDecimal_toDigitsCore (n + 1) n [] (Nat.lt_succ_self n)

/-- C9, as stated, fails at the end of the counter's range: when the parent's
previous `ForkAt` drew 2^64 - 1, its next one draws 0, not one more. -/
theorem ForkAt_parent_next_wraps :
    (let c : myContextImpl logger :=
       { stdCtx := StdContext.background, tracker := 0, env := env.mk none 0,
         logger := NewLogger "root" "" }
     let w : World :=
       { heap := (NewEnv Heap.init).2, cells := fun _ => 2 ^ 64 - 2, nextCell := 1 }
     let r := c.ForkAt "" w
     let r2 := r.1.ForkAt "" r.2
     c.seq w = 2 ^ 64 - 1 ∧ c.seq r2.2 = 0 ∧ c.seq r2.2 ≠ c.seq w + 1) := by
  decide

/-- C9, amended: a context returned by `ForkAt` owns a new counter that starts
at zero, so its first `ForkAt` draws 1 whatever the parent's counter holds;
`ForkAt` calls on the child leave the parent's counter as it was, and the
parent's next `ForkAt` draws one more than its previous one modulo 2^64 (one
more, unless the previous one drew 2^64 - 1). -/
theorem ForkAt_child_counter {L : Type} [Logger L] (c : myContextImpl L) (w : World)
    (location : String) (locs : List String) (halloc : c.tracker < w.nextCell) :
    (c.ForkAt location w).1.tracker ≠ c.tracker ∧
    (c.ForkAt location w).2.cells (c.ForkAt location w).1.tracker = 0 ∧
    (c.ForkAt location w).1.seq (c.ForkAt location w).2 = 1 ∧
    (forkAll (c.ForkAt location w).1 locs (c.ForkAt location w).2).2.cells c.tracker
      = (c.ForkAt location w).2.cells c.tracker ∧
    c.seq (forkAll (c.ForkAt location w).1 locs (c.ForkAt location w).2).2
      = (c.seq w + 1) % 2 ^ 64 ∧
    (c.seq w ≠ 2 ^ 64 - 1 →
      c.seq (forkAll (c.ForkAt location w).1 locs (c.ForkAt location w).2).2 = c.seq w + 1) := by
  have h1 : c.tracker ≠ w.nextCell := by omega
  have hne : (c.ForkAt location w).1.tracker ≠ c.tracker := by
    rw [ForkAt_tracker]; omega
  have h0 : (c.ForkAt location w).2.cells (c.ForkAt location w).1.tracker = 0 := by
    rw [ForkAt_cells, ForkAt_tracker]; simp
  have hkeep : (forkAll (c.ForkAt location w).1 locs (c.ForkAt location w).2).2.cells c.tracker
      = (c.ForkAt location w).2.cells c.tracker :=
    forkAll_cells_other _ c.tracker locs _ (by rw [ForkAt_nextCell]; omega) (fun h => hne h.symm)
  have hnext : c.seq (forkAll (c.ForkAt location w).1 locs (c.ForkAt location w).2).2
      = (c.seq w + 1) % 2 ^ 64 := by
    rw [seq_eq, hkeep, ForkAt_cells]
    simp only [h1, if_false, if_true]
  refine ⟨hne, h0, ?_, hkeep, hnext, ?_⟩
  · rw [seq_eq, h0]; decide
  · intro hlt
    rw [hnext]
    have : c.seq w < 2 ^ 64 := by rw [seq_eq]; exact Nat.mod_lt _ (by norm_num)
    exact Nat.mod_eq_of_lt (by omega)

/-- C9 amended, at a concrete input: a root that has forked once. -/
theorem ForkAt_child_counter_witness :
    (let r0 : myContextImpl logger × World := Named "root" World.init
     let r1 := r0.1.ForkAt "" r0.2
     (r0.1.ForkAt "x" r1.2).1.seq (r0.1.ForkAt "x" r1.2).2 = 1) :=
  (ForkAt_child_counter (Named "root" World.init : myContextImpl logger × World).1
    ((Named "root" World.init : myContextImpl logger × World).1.ForkAt ""
      (Named "root" World.init : myContextImpl logger × World).2).2 "x" ["", ""]
    (by decide)).2.2.1

/-- C10, as stated, fails: `At` copies the pointer to the counter.  After one
`ForkAt` on a new root `c`, the first `ForkAt` on `c.At("x")` draws 2, not 1, and
advances the counter of `c`, whose next `ForkAt` then draws 3. -/
theorem At_shares_counter_example :
    (let r0 : myContextImpl logger × World := Named "root" World.init
     let r1 := r0.1.ForkAt "" r0.2
     let d := r0.1.At "x" r1.2
     let r2 := d.1.ForkAt "" d.2
     d.1.seq d.2 = 2 ∧ d.1.seq d.2 ≠ 1 ∧
     r0.1.seq d.2 = 2 ∧ r0.1.seq r2.2 = 3 ∧
     r2.2.cells r0.1.tracker ≠ d.2.cells r0.1.tracker) := by
  decide

/-- C10, amended: `At(location)` returns a context that shares the counter of
`c`.  It draws no sequence number and allocates no counter; in every store a
`ForkAt` on `c.At(location)` draws what a `ForkAt` on `c` would draw, the value
of the counter of `c` plus one modulo 2^64, and it advances the counter of
`c`. -/
theorem At_shares_counter {L : Type} [Logger L] (c : myContextImpl L) (location : String)
    (w : World) (halloc : c.tracker < w.nextCell) :
    (c.At location w).1.tracker = c.tracker ∧
    (c.At location w).2.cells = w.cells ∧
    (c.At location w).2.nextCell = w.nextCell ∧
    (∀ w2 : World, (c.At location w).1.seq w2 = c.seq w2) ∧
    (c.At location w).1.seq (c.At location w).2 = (w.cells c.tracker + 1) % 2 ^ 64 ∧
    (∀ loc2 : String,
      ((c.At location w).1.ForkAt loc2 (c.At location w).2).2.cells c.tracker
        = (w.cells c.tracker + 1) % 2 ^ 64 ∧
      c.seq ((c.At location w).1.ForkAt loc2 (c.At location w).2).2
        = ((w.cells c.tracker + 1) % 2 ^ 64 + 1) % 2 ^ 64) := by
  have h1 : c.tracker ≠ w.nextCell := by omega
  have hc : ∀ loc2 : String,
      ((c.At location w).1.ForkAt loc2 (c.At location w).2).2.cells c.tracker
        = (w.cells c.tracker + 1) % 2 ^ 64 := by
    intro loc2
    rw [ForkAt_cells]
    have h2 : c.tracker ≠ (c.At location w).2.nextCell := h1
    have h3 : (c.At location w).1.tracker = c.tracker := rfl
    simp only [h2, if_false, h3, if_true, seq_eq]
    rfl
  refine ⟨rfl, rfl, rfl, fun _ => rfl, rfl, ?_⟩
  intro loc2
  refine ⟨hc loc2, ?_⟩
  rw [seq_eq, hc loc2]

/-- C10 amended, at a concrete input: a root that has forked once. -/
theorem At_shares_counter_witness :
    (let r0 : myContextImpl logger × World := Named "root" World.init
     let r1 := r0.1.ForkAt "" r0.2
     (r0.1.At "x" r1.2).1.seq (r0.1.At "x" r1.2).2 = (r1.2.cells r0.1.tracker + 1) % 2 ^ 64) :=
  (At_shares_counter (Named "root" World.init : myContextImpl logger × World).1 "x"
    ((Named "root" World.init : myContextImpl logger × World).1.ForkAt ""
      (Named "root" World.init : myContextImpl logger × World).2).2 (by decide)).2.2.2.2.1

/-! ## Theorems: the base context and the value channel -/

/-- C11: `RebornWith` replaces the base wholesale.  With a non-nil base `b` the
`Deadline`, `Done`, `Err` and `Value` results of `c.RebornWith(b)` are those of
`b`, in every store, and the result does not depend on the base of `c`;
`c.RebornWith(nil)` and `c.Reborn()` have the background base, so their `Err`
is nil and their `Value` is nil for every key. -/
theorem RebornWith_base {L : Type} [Logger L] (c : myContextImpl L) (b : StdContext)
    (w : World) :
    (c.RebornWith (some b) w).1.Deadline = b.Deadline ∧
    (c.RebornWith (some b) w).1.Done = b.Done ∧
    (∀ w2 : World, (c.RebornWith (some b) w).1.Err w2 = b.Err w2) ∧
    (∀ k : Any, (c.RebornWith (some b) w).1.Value k = b.Value k) ∧
    (∀ s : StdContext,
      ({ c with stdCtx := s } : myContextImpl L).RebornWith (some b) w
        = c.RebornWith (some b) w) ∧
    (c.RebornWith none w).1.stdCtx = StdContext.background ∧
    (c.Reborn w).1.stdCtx = StdContext.background ∧
    (∀ w2 : World, (c.RebornWith none w).1.Err w2 = none ∧ (c.Reborn w).1.Err w2 = none) ∧
    (∀ k : Any, (c.RebornWith none w).1.Value k = Outcome.ret Any.nil ∧
      (c.Reborn w).1.Value k = Outcome.ret Any.nil) ∧
    (c.RebornWith none w).1.Done = none ∧ (c.Reborn w).1.Done = none := by
  refine ⟨rfl, rfl, fun _ => rfl, fun _ => rfl, fun _ => rfl, rfl, rfl,
    fun _ => ⟨rfl, rfl⟩, fun _ => ⟨rfl, rfl⟩, rfl, rfl⟩

theorem stdWithValue_valid (parent : StdContext) (k v : Any) (hk : validKey k = true) :
    context.WithValue parent k v = Outcome.ret (StdContext.valueCtx parent k v) := by
  unfold validKey at hk
  unfold context.WithValue
  cases hT : TypeOf k with
  | none => rw [hT] at hk; exact Bool.noConfusion hk
  | some t =>
    have hne : k ≠ Any.nil := by
      intro hnil
      rw [(TypeOf_eq_none k).2 hnil] at hT
      exact Option.noConfusion hT
    rw [hT] at hk
    simp only at hk
    simp [hk, hne]

theorem WithValue_valid {L : Type} [Logger L] (c : myContextImpl L) (k v : Any) (w : World)
    (hk : validKey k = true) :
    c.WithValue k v w =
      (Outcome.ret { (c.fork "" "" w).1 with stdCtx := StdContext.valueCtx c.stdCtx k v },
       (c.fork "" "" w).2) := by
  unfold myContextImpl.WithValue
  have h1 : (c.fork "" "" w).1.stdCtx = c.stdCtx := rfl
  simp only [h1, stdWithValue_valid c.stdCtx k v hk]

theorem hashable_iff (k : Any) : hashable k = true ↔ eqPanics k k = false := by
  induction k with
  | array1 elem ih => simp [hashable, eqPanics, ih]
  | slice v => simp [hashable, eqPanics]
  | _ => simp [hashable, eqPanics]

theorem eqPanics_left : ∀ (a b : Any), eqPanics a b = true → eqPanics a a = true := by
  intro a
  induction a with
  | array1 elem ih =>
    intro b h
    cases b <;> simp_all [eqPanics]
    exact ih _ h
  | slice v => intro b _; simp [eqPanics]
  | _ => intro b h; cases b <;> simp_all [eqPanics]

/-- A key that is `==` to itself holds no slice and no NaN: it can be hashed
and its comparison with any value returns. -/
theorem goEq_self (k : Any) (hr : goEq k k = Outcome.ret true) :
    hashable k = true ∧ keyEq k k = true ∧ ∀ k1 : Any, goEq k k1 = Outcome.ret (keyEq k k1) := by
  unfold goEq at hr
  cases hp : eqPanics k k
  · rw [hp] at hr
    simp only [Bool.false_eq_true, if_false] at hr
    injection hr with hr
    refine ⟨(hashable_iff k).2 hp, hr, ?_⟩
    intro k1
    unfold goEq
    cases hp1 : eqPanics k k1
    · simp
    · rw [eqPanics_left k k1 hp1] at hp
      exact Bool.noConfusion hp
  · rw [hp] at hr
    simp at hr

/-- C12, as stated, fails for two kinds of keys that `context.WithValue`
accepts as comparable.  With the key NaN, `c2.Value(NaN)` is nil, not the
value; with the key `[1]interface{}{[]int{1}}`, `c2.Value(k)` panics comparing
the key with itself. -/
theorem WithValue_roundtrip_fails_on_key :
    (∃ c2 : myContextImpl logger,
      ((Named "root" World.init : myContextImpl logger × World).1.WithValue
        (Any.float64 Float64.NaN) (Any.int 1)
        (Named "root" World.init : myContextImpl logger × World).2).1 = Outcome.ret c2 ∧
      c2.Value (Any.float64 Float64.NaN) = Outcome.ret Any.nil ∧
      c2.Value (Any.float64 Float64.NaN) ≠ Outcome.ret (Any.int 1)) ∧
    (∃ c2 : myContextImpl logger,
      ((Named "root" World.init : myContextImpl logger × World).1.WithValue
        (Any.array1 (Any.slice [1])) (Any.int 1)
        (Named "root" World.init : myContextImpl logger × World).2).1 = Outcome.ret c2 ∧
      c2.Value (Any.array1 (Any.slice [1]))
        = Outcome.panic "runtime error: comparing uncomparable type []int") := by
  exact ⟨⟨_, rfl, by decide, by decide⟩, ⟨_, rfl, by decide⟩⟩

/-- C12, amended: `WithValue` round trip.  For a non-nil key `k` of comparable
type that is `==` to itself (it holds no NaN and no value of a type that is
not comparable), `c.WithValue(k, v)` returns a context `c2` whose base is the
base of `c` with the pair added: `c2.Value(k)` is `v` and `c2.Value` agrees
with `c.Value` on every other key.  `Value` reads the base only, and the base
of `c` is not modified, so every `c.Value` is as before. -/
theorem WithValue_roundtrip {L : Type} [Logger L] (c : myContextImpl L) (k v : Any)
    (w : World) (hk : validKey k = true) (hr : goEq k k = Outcome.ret true) :
    ∃ c2 : myContextImpl L, (c.WithValue k v w).1 = Outcome.ret c2 ∧
      c2.stdCtx = StdContext.valueCtx c.stdCtx k v ∧
      c2.Value k = Outcome.ret v ∧
      (∀ k1 : Any, k1 ≠ k → c2.Value k1 = c.Value k1) ∧
      (∀ k2 : Any, c.Value k2 = c.stdCtx.Value k2) := by
  refine ⟨_, by rw [WithValue_valid c k v w hk], rfl, ?_, ?_, fun _ => rfl⟩
  · simp [myContextImpl.Value, StdContext.Value, hr]
  · intro k1 hne
    have h1 := (goEq_self k hr).2.2 k1
    rw [keyEq_ne k k1 (fun h => hne h.symm)] at h1
    simp [myContextImpl.Value, StdContext.Value, h1]

/-- C12 amended, at a concrete input: a value attached over an earlier one. -/
theorem WithValue_roundtrip_witness :
    ∃ c2 : myContextImpl logger,
      (({ (Named "root" World.init : myContextImpl logger × World).1 with
            stdCtx := StdContext.valueCtx StdContext.background (Any.string "k") (Any.int 1) }
          : myContextImpl logger).WithValue (Any.string "k") (Any.int 2)
          (Named "root" World.init : myContextImpl logger × World).2).1 = Outcome.ret c2 ∧
      c2.Value (Any.string "k") = Outcome.ret (Any.int 2) :=
  (WithValue_roundtrip _ (Any.string "k") (Any.int 2) _ (by decide) (by decide)).imp
    (fun _ hc => ⟨hc.1, hc.2.2.1⟩)

theorem alloc_vals (h : Heap) (a : Nat) :
    h.alloc.2.vals a = if a = h.next then SyncMap.empty else h.vals a := rfl

theorem find_alloc (k : Any) (h : Heap) : ∀ (e : env), h.next ∉ e.chain →
    e.find k h.alloc.2 = e.find k h
  | .mk none c => by
    intro hn
    have hc : ¬ c = h.next := by
      intro hca; apply hn; simp [env.chain, hca]
    rw [find_root, find_root, alloc_vals]
    simp [hc]
  | .mk (some p) c => by
    intro hn
    have hc : ¬ c = h.next := by
      intro hca; apply hn; simp [env.chain, hca]
    have hp : h.next ∉ p.chain := by
      intro hpa; apply hn; simp [env.chain, hpa]
    rw [find_child, find_child, find_alloc k h p hp, alloc_vals]
    simp [hc]

theorem next_not_mem (e : env) (h : Heap) (hal : e.allocated h = true) : h.next ∉ e.chain :=
  fun hm => Nat.lt_irrefl _ (allocated_lt e h hal _ hm)

theorem find_Fork (e : env) (h : Heap) (k : Any) (hal : e.allocated h = true) :
    (e.Fork h).1.find k (e.Fork h).2 = e.find k h := by
  have h1 : (e.Fork h).1 = env.mk (some e) h.next := rfl
  have h2 : (e.Fork h).2 = h.alloc.2 := rfl
  rw [h1, h2, find_child, find_alloc k h e (next_not_mem e h hal), alloc_vals]
  simp [SyncMap.empty, loadEntries]

/-- A node forked from `e` sees, at the moment of the fork, what `e` saw. -/
theorem get_Fork (e : env) (h : Heap) (k : Any) (hal : e.allocated h = true) :
    (e.Fork h).1.Get k (e.Fork h).2 = e.Get k h := by
  rw [Get_eq_find, Get_eq_find, find_Fork e h k hal]

theorem get_alloc (k : Any) (h : Heap) (e : env) (hn : h.next ∉ e.chain) :
    e.Get k h.alloc.2 = e.Get k h :=
  Get_congr e k _ _ (find_alloc k h e hn)

theorem get_set_same (e : env) (k v : Any) (h : Heap) (hk : validKey k = true)
    (hh : hashable k = true) (hr : keyEq k k = true) :
    e.Get k (e.Set k v h).2 = Outcome.ret (v, true) := by
  rw [set_valid e k v h hk hh, Get_hashable _ k _ hh, find_set_same e k v h hr]

/-- C13, as stated, fails for the keys `context.WithValue` rejects: with a nil
key, or a key of a type that is not comparable, `c.WithValue(k, v)` panics and
returns no context whose `Env()` could be read. -/
theorem WithValue_rejects_key :
    ((Named "root" World.init : myContextImpl logger × World).1.WithValue Any.nil (Any.int 1)
      (Named "root" World.init : myContextImpl logger × World).2).1 = Outcome.panic "nil key" ∧
    ((Named "root" World.init : myContextImpl logger × World).1.WithValue (Any.slice [1])
      (Any.int 1) (Named "root" World.init : myContextImpl logger × World).2).1
      = Outcome.panic "key is not comparable" := by
  constructor <;> rfl

/-- C13, amended: the value channel of the base and the Env are distinct
storage.  For a non-nil key `k` of comparable type, `c.WithValue(k, v)` returns
a context `d` with `d.Env().Get(k1)` equal to `c.Env().Get(k1)` for every key
`k1`, `k` included: nothing is stored in the Env.  `Env().Set` changes the
store of the environment only, which `Value` does not read: `c.Value(k)` is
what the base of `c` gives, whatever is set.  When `k` is `==` to itself, after
`d.Env().Set(k, v2)` `d.Value(k)` is still `v` while `d.Env().Get(k)` is
`v2`, and likewise `c.Env().Set(k, v1)` makes `c.Env().Get(k)` return `v1`.
When `k` is not `==` to itself (it holds a NaN) `d.Value(k)` is `c.Value(k)`,
and when the comparison of `k` with itself panics, so does `d.Value(k)`. -/
theorem WithValue_Env_distinct {L : Type} [Logger L] (c : myContextImpl L) (k v : Any)
    (w : World) (hk : validKey k = true) (halloc : c.env.allocated w.heap = true) :
    ∃ d : myContextImpl L, (c.WithValue k v w).1 = Outcome.ret d ∧
      (∀ k1 : Any, d.Env.Get k1 (c.WithValue k v w).2.heap = c.Env.Get k1 w.heap) ∧
      (c.Value k = c.stdCtx.Value k ∧ d.Value k = d.stdCtx.Value k) ∧
      (goEq k k = Outcome.ret true →
        (∀ v2 : Any, d.Value k = Outcome.ret v ∧
          d.Env.Get k (d.Env.Set k v2 (c.WithValue k v w).2.heap).2 = Outcome.ret (v2, true)) ∧
        (∀ (v1 : Any) (h : Heap),
          c.Env.Get k (c.Env.Set k v1 h).2 = Outcome.ret (v1, true) ∧
          c.Value k = c.stdCtx.Value k)) ∧
      (goEq k k = Outcome.ret false → d.Value k = c.Value k) ∧
      (∀ msg : String, goEq k k = Outcome.panic msg → d.Value k = Outcome.panic msg) := by
  rw [WithValue_valid c k v w hk]
  refine ⟨_, rfl, ?_, ?_, ?_, ?_, ?_⟩
  · intro k1
    exact get_Fork c.env w.heap k1 halloc
  · exact ⟨rfl, rfl⟩
  rotate_left
  · intro hr
    simp [myContextImpl.Value, StdContext.Value, hr]
  · intro msg hr
    simp [myContextImpl.Value, StdContext.Value, hr]
  · intro hr
    obtain ⟨hh, hkk, _⟩ := goEq_self k hr
    constructor
    · intro v2
      refine ⟨by simp [myContextImpl.Value, StdContext.Value, hr], ?_⟩
      exact get_set_same _ k v2 _ hk hh hkk
    · intro v1 h
      exact ⟨get_set_same _ k v1 _ hk hh hkk, rfl⟩

/-- C13 amended, at a concrete input: a new root and the key "k". -/
theorem WithValue_Env_distinct_witness :
    ∃ d : myContextImpl logger,
      ((Named "root" World.init : myContextImpl logger × World).1.WithValue (Any.string "k")
        (Any.int 1) (Named "root" World.init : myContextImpl logger × World).2).1
        = Outcome.ret d ∧
      d.Env.Get (Any.string "k")
          ((Named "root" World.init : myContextImpl logger × World).1.WithValue (Any.string "k")
            (Any.int 1) (Named "root" World.init : myContextImpl logger × World).2).2.heap
        = Outcome.ret (Any.nil, false) ∧
      d.Value (Any.string "k") = Outcome.ret (Any.int 1) := by
  obtain ⟨d, h1, h2, _, h4, _⟩ :=
    WithValue_Env_distinct (Named "root" World.init : myContextImpl logger × World).1
      (Any.string "k") (Any.int 1) (Named "root" World.init : myContextImpl logger × World).2
      (by decide) (by decide)
  refine ⟨d, h1, ?_, ((h4 (by decide)).1 Any.nil).1⟩
  rw [h2]
  decide
/-! ## Theorems: mbase.go -/

theorem toDigitsCore_length : ∀ (fuel n : Nat) (ds : List Char), n < fuel →
    (Nat.toDigitsCore 10 fuel n ds).length = ds.length + Nat.log 10 n + 1 := by
  intro fuel
  induction fuel with
  | zero => intro n ds h; omega
  | succ f ih =>
    intro n ds h
    simp only [Nat.toDigitsCore]
    split
    · rename_i h0
      have hn : n < 10 := by omega
      simp [Nat.log_of_lt hn]
    · rename_i h0
      have hlt : n / 10 < f := by omega
      have hge : 10 ≤ n := by omega
      rw [ih (n / 10) _ hlt, Nat.log_div_base]
      have hpos : 0 < Nat.log 10 n := Nat.log_pos (by norm_num) hge
      simp only [List.length_cons]
      omega

theorem FormatUint_length (n : Nat) : (FormatUint n 10).length = Nat.log 10 n + 1 := by
  unfold FormatUint Nat.toDigits
  rw [String.length_mk, toDigitsCore_length (n + 1) n [] (Nat.lt_succ_self n)]
  simp

theorem FormatUint_length_le (n k : Nat) :
    (FormatUint n 10).length ≤ k + 1 ↔ n < 10 ^ (k + 1) := by
  rw [FormatUint_length]
  by_cases h0 : n = 0
  · subst h0; simp
  · rw [Nat.lt_pow_iff_log_lt (by norm_num) h0]
    omega

theorem sliceTo_zeros (j : Nat) (hj : j ≤ 12) :
    sliceTo "000000000000" (j : Int) = Outcome.ret (String.mk (List.replicate j '0')) := by
  interval_cases j <;> rfl

theorem sliceTo_neg (s : String) (hi : Int) (h : hi < 0) :
    sliceTo s hi = Outcome.panic "slice bounds out of range" := by
  simp [sliceTo, h]

theorem headD_append (pfx : List String) (x : String) :
    (if pfx.length > 0 then pfx.headD "" ++ x else x) = pfx.headD "" ++ x := by
  cases pfx with
  | nil => simp
  | cons p rest => simp

/-- A call whose sequence number has at most 12 digits returns the name. -/
theorem call_lt (g : mbase.generator) (pfx : List String) (w : World)
    (hn : (w.cells g.counter + 1) % 2 ^ 64 < 10 ^ 12) :
    g.call pfx w = (Outcome.ret (sessionName pfx g.header ((w.cells g.counter + 1) % 2 ^ 64)),
      (atomicAddUint64 g.counter 1 w).2) := by
  have hlen := (FormatUint_length_le ((w.cells g.counter + 1) % 2 ^ 64) 11).2 hn
  have hpos : 1 ≤ (FormatUint ((w.cells g.counter + 1) % 2 ^ 64) 10).length := by
    rw [FormatUint_length]; omega
  have hcast : (12 : Int) - ((FormatUint ((w.cells g.counter + 1) % 2 ^ 64) 10).length : Int)
      = ((12 - (FormatUint ((w.cells g.counter + 1) % 2 ^ 64) 10).length : Nat) : Int) := by
    omega
  unfold mbase.generator.call
  simp only [atomicAddUint64]
  rw [hcast, sliceTo_zeros _ (by omega)]
  simp only [sessionName, padded12]
  cases pfx with
  | nil => simp [String.append_assoc]
  | cons p rest => simp [String.append_assoc]

/-- A call whose sequence number has more than 12 digits panics in the slice
expression. -/
theorem call_ge (g : mbase.generator) (pfx : List String) (w : World)
    (hn : 10 ^ 12 ≤ (w.cells g.counter + 1) % 2 ^ 64) :
    g.call pfx w = (Outcome.panic "slice bounds out of range",
      (atomicAddUint64 g.counter 1 w).2) := by
  have hlen : ¬ (FormatUint ((w.cells g.counter + 1) % 2 ^ 64) 10).length ≤ 12 := by
    rw [FormatUint_length_le _ 11]; omega
  unfold mbase.generator.call
  simp only [atomicAddUint64]
  rw [sliceTo_neg _ _ (by omega)]

theorem call_cells (g : mbase.generator) (pfx : List String) (w : World) (a : Nat) :
    (g.call pfx w).2.cells a
      = if a = g.counter then (w.cells g.counter + 1) % 2 ^ 64 else w.cells a := by
  have hs : (g.call pfx w).2 = (atomicAddUint64 g.counter 1 w).2 := by
    unfold mbase.generator.call
    simp only []
    split
    · rfl
    · split <;> rfl
  rw [hs]
  rfl

/-- The call number `i + 1`, when its sequence number is below 10^12. -/
theorem callAll_get (g : mbase.generator) :
    ∀ (calls : List (List String)) (w : World) (i : Nat) (pfx : List String),
      w.cells g.counter + i + 1 < 10 ^ 12 → calls[i]? = some pfx →
      (callAll g calls w).1[i]?
        = some (Outcome.ret (sessionName pfx g.header (w.cells g.counter + i + 1)))
  | [], w, i, pfx, _, hi => by simp at hi
  | p0 :: rest, w, 0, pfx, hb, hi => by
    simp only [List.getElem?_cons_zero, Option.some.injEq] at hi
    subst hi
    have hmod : (w.cells g.counter + 1) % 2 ^ 64 = w.cells g.counter + 1 :=
      Nat.mod_eq_of_lt (by omega)
    have hc := call_lt g p0 w (by rw [hmod]; omega)
    simp only [callAll, List.getElem?_cons_zero, hc, hmod, Nat.add_zero]
  | p0 :: rest, w, i + 1, pfx, hb, hi => by
    simp only [List.getElem?_cons_succ] at hi
    have hmod : (w.cells g.counter + 1) % 2 ^ 64 = w.cells g.counter + 1 :=
      Nat.mod_eq_of_lt (by omega)
    have hcell : (g.call p0 w).2.cells g.counter = w.cells g.counter + 1 := by
      rw [call_cells, if_pos rfl, hmod]
    have ih := callAll_get g rest (g.call p0 w).2 i pfx (by rw [hcell]; omega) hi
    rw [hcell] at ih
    simp only [callAll, List.getElem?_cons_succ, ih]
    congr 3
    omega

theorem readDecimal_zeros (j : Nat) (ds : List Char) :
    readDecimal (List.replicate j '0' ++ ds) 0 = readDecimal ds 0 := by
  induction j with
  | zero => simp
  | succ j ih =>
    simp only [List.replicate_succ, List.cons_append, readDecimal, List.foldl_cons] at ih ⊢
    have : 10 * 0 + digitVal '0' = 0 := by decide
    rw [this]
    exact ih

theorem readDecimal_padded12 (n : Nat) : readDecimal (padded12 n).data 0 = n := by
  unfold padded12
  rw [String.data_append, readDecimal_zeros]
  exact readDecimal_toDigitsCore (n + 1) n [] (Nat.lt_succ_self n)

theorem padded12_length (n : Nat) (hn : n < 10 ^ 12) : (padded12 n).length = 12 := by
  have hlen := (FormatUint_length_le n 11).2 hn
  unfold padded12
  rw [String.length_append, String.length_mk, List.length_replicate]
  omega

theorem sessionName_injective (pfx : List String) (header : String) (a b : Nat)
    (h : sessionName pfx header a = sessionName pfx header b) : a = b := by
  unfold sessionName at h
  have h2 := congrArg String.data h
  simp only [String.data_append] at h2
  have h3 := List.append_cancel_left h2
  have ha := readDecimal_padded12 a
  rw [h3, readDecimal_padded12 b] at ha
  exact ha.symm


theorem callAll_length (g : mbase.generator) :
    ∀ (calls : List (List String)) (w : World), (callAll g calls w).1.length = calls.length
  | [], w => rfl
  | p0 :: rest, w => by
    simp only [callAll, List.length_cons]
    rw [callAll_length g rest]

theorem callAll_cells_other (g : mbase.generator) (a : Nat) (ha : a ≠ g.counter) :
    ∀ (calls : List (List String)) (w : World), (callAll g calls w).2.cells a = w.cells a
  | [], w => rfl
  | p0 :: rest, w => by
    simp only [callAll]
    rw [callAll_cells_other g a ha rest, call_cells, if_neg ha]

/-- C14: the n-th call of `g = PrefixedSessionNameGenerator(header)`, for
n < 10^12, returns `p + header + d`: `p` is the first prefix argument (empty
when there is none) and `d` is the decimal form of n left-padded with zeros to
12 characters.  The calls share one counter whatever prefix they pass, and a
second generator has a counter of its own: its calls do not change what the
calls of `g` return. -/
theorem generator_nth (header : String) (w : World) (calls : List (List String)) :
    (∀ (i : Nat) (pfx : List String), i + 1 < 10 ^ 12 → calls[i]? = some pfx →
      (callAll (mbase.PrefixedSessionNameGenerator header w).1 calls
          (mbase.PrefixedSessionNameGenerator header w).2).1[i]?
        = some (Outcome.ret (sessionName pfx header (i + 1)))) ∧
    (∀ (pfx : List String) (n : Nat), n < 10 ^ 12 →
      sessionName pfx header n = pfx.headD "" ++ header ++ padded12 n ∧
      (padded12 n).length = 12 ∧ readDecimal (padded12 n).data 0 = n ∧
      padded12 n
        = String.mk (List.replicate (12 - (FormatUint n 10).length) '0') ++ FormatUint n 10) ∧
    (∀ (header2 : String) (calls2 : List (List String)),
      (mbase.PrefixedSessionNameGenerator header2
          (mbase.PrefixedSessionNameGenerator header w).2).1.counter
        ≠ (mbase.PrefixedSessionNameGenerator header w).1.counter ∧
      ∀ (i : Nat) (pfx : List String), i + 1 < 10 ^ 12 → calls[i]? = some pfx →
        (callAll (mbase.PrefixedSessionNameGenerator header w).1 calls
            (callAll (mbase.PrefixedSessionNameGenerator header2
                (mbase.PrefixedSessionNameGenerator header w).2).1 calls2
              (mbase.PrefixedSessionNameGenerator header2
                (mbase.PrefixedSessionNameGenerator header w).2).2).2).1[i]?
          = some (Outcome.ret (sessionName pfx header (i + 1)))) := by
  have hg : (mbase.PrefixedSessionNameGenerator header w).1.header = header := rfl
  have hc : (mbase.PrefixedSessionNameGenerator header w).1.counter = w.nextCell := rfl
  have h0 : (mbase.PrefixedSessionNameGenerator header w).2.cells
      (mbase.PrefixedSessionNameGenerator header w).1.counter = 0 := by
    simp [mbase.PrefixedSessionNameGenerator, World.newUint64]
  refine ⟨?_, ?_, ?_⟩
  · intro i pfx hlt hi
    have := callAll_get (mbase.PrefixedSessionNameGenerator header w).1 calls
      (mbase.PrefixedSessionNameGenerator header w).2 i pfx (by rw [h0]; omega) hi
    rw [h0, hg, Nat.zero_add] at this
    exact this
  · intro pfx n hn
    exact ⟨rfl, padded12_length n hn, readDecimal_padded12 n, rfl⟩
  · intro header2 calls2
    have hc2 : (mbase.PrefixedSessionNameGenerator header2
          (mbase.PrefixedSessionNameGenerator header w).2).1.counter = w.nextCell + 1 := rfl
    have hne : (mbase.PrefixedSessionNameGenerator header w).1.counter
        ≠ (mbase.PrefixedSessionNameGenerator header2
          (mbase.PrefixedSessionNameGenerator header w).2).1.counter := by
      rw [hc, hc2]; omega
    refine ⟨fun h => hne h.symm, ?_⟩
    intro i pfx hlt hi
    have hcell : (callAll (mbase.PrefixedSessionNameGenerator header2
                (mbase.PrefixedSessionNameGenerator header w).2).1 calls2
              (mbase.PrefixedSessionNameGenerator header2
                (mbase.PrefixedSessionNameGenerator header w).2).2).2.cells
          (mbase.PrefixedSessionNameGenerator header w).1.counter = 0 := by
      rw [callAll_cells_other _ _ hne]
      simp [mbase.PrefixedSessionNameGenerator, World.newUint64]
    have := callAll_get (mbase.PrefixedSessionNameGenerator header w).1 calls _ i pfx
      (by rw [hcell]; omega) hi
    rw [hcell, hg, Nat.zero_add] at this
    exact this

/-- C14 at a concrete input: three calls, with and without a prefix. -/
theorem generator_nth_witness :
    (callAll (mbase.PrefixedSessionNameGenerator "boot-" World.init).1 [[], ["a"], ["b", "c"]]
        (mbase.PrefixedSessionNameGenerator "boot-" World.init).2).1[1]?
      = some (Outcome.ret (sessionName ["a"] "boot-" 2)) ∧
    sessionName ["a"] "boot-" 2 = "aboot-000000000002" :=
  ⟨(generator_nth "boot-" World.init [[], ["a"], ["b", "c"]]).1 1 ["a"] (by decide) rfl,
    by decide⟩

/-- C20: the slice `h[:12-len(s)]` of the generator is in bounds exactly when
the sequence number has at most 12 decimal digits, that is when it is below
10^12.  A call with such a sequence number returns the name, whose length is
that of the prefix argument and the header plus 12, and for a fixed prefix
argument different sequence numbers give different names, so the first N
calls of a new generator, N < 10^12, return N distinct strings; a call with a
sequence number of 10^12 or more has a negative bound and panics. -/
theorem generator_slice_bounds (g : mbase.generator) (pfx : List String) (w : World) :
    ((∃ pad, sliceTo "000000000000" (12 - ((FormatUint (g.seq w) 10).length : Int))
        = Outcome.ret pad) ↔ (FormatUint (g.seq w) 10).length ≤ 12) ∧
    ((FormatUint (g.seq w) 10).length ≤ 12 ↔ g.seq w < 10 ^ 12) ∧
    (g.seq w < 10 ^ 12 →
      (g.call pfx w).1 = Outcome.ret (sessionName pfx g.header (g.seq w)) ∧
      (sessionName pfx g.header (g.seq w)).length
        = (pfx.headD "").length + g.header.length + 12) ∧
    (10 ^ 12 ≤ g.seq w →
      (12 : Int) - ((FormatUint (g.seq w) 10).length : Int) < 0 ∧
      (g.call pfx w).1 = Outcome.panic "slice bounds out of range") ∧
    (∀ a b : Nat, a ≠ b → sessionName pfx g.header a ≠ sessionName pfx g.header b) ∧
    (∀ N : Nat, N < 10 ^ 12 → w.cells g.counter = 0 →
      (callAll g (List.replicate N pfx) w).1.Nodup ∧
      ∀ r ∈ (callAll g (List.replicate N pfx) w).1, ∃ name, r = Outcome.ret name ∧
        name.length = (pfx.headD "").length + g.header.length + 12) := by
  have hseq : g.seq w = (w.cells g.counter + 1) % 2 ^ 64 := rfl
  have hiff := FormatUint_length_le (g.seq w) 11
  have hpos : 1 ≤ (FormatUint (g.seq w) 10).length := by
    rw [FormatUint_length]; omega
  have hlenName : ∀ n : Nat, n < 10 ^ 12 → (sessionName pfx g.header n).length
      = (pfx.headD "").length + g.header.length + 12 := by
    intro n hn
    simp only [sessionName, String.length_append, padded12_length n hn]
  refine ⟨?_, hiff, ?_, ?_, ?_, ?_⟩
  · constructor
    · rintro ⟨pad, hp⟩
      by_contra hgt
      rw [sliceTo_neg _ _ (by omega)] at hp
      exact Outcome.noConfusion hp
    · intro hle
      have hcast : (12 : Int) - ((FormatUint (g.seq w) 10).length : Int)
          = ((12 - (FormatUint (g.seq w) 10).length : Nat) : Int) := by omega
      rw [hcast, sliceTo_zeros _ (by omega)]
      exact ⟨_, rfl⟩
  · intro hn
    rw [hseq] at hn
    refine ⟨by rw [call_lt g pfx w hn, hseq], ?_⟩
    exact hlenName _ (by rw [hseq]; exact hn)
  · intro hn
    have hgt : ¬ (FormatUint (g.seq w) 10).length ≤ 12 := by
      rw [hiff]; omega
    rw [hseq] at hn
    refine ⟨by omega, by rw [call_ge g pfx w hn]⟩
  · intro a b hab h
    exact hab (sessionName_injective pfx g.header a b h)
  · intro N hN hfresh
    have hget : ∀ i : Nat, i < N → (callAll g (List.replicate N pfx) w).1[i]?
        = some (Outcome.ret (sessionName pfx g.header (i + 1))) := by
      intro i hi
      have := callAll_get g (List.replicate N pfx) w i pfx
        (by rw [hfresh]; omega)
        (by rw [List.getElem?_replicate]; simp [hi])
      rw [hfresh, Nat.zero_add] at this
      exact this
    have hlen : (callAll g (List.replicate N pfx) w).1.length = N := by
      rw [callAll_length, List.length_replicate]
    constructor
    · rw [List.nodup_iff_getElem?_ne_getElem?]
      intro i j hij hj
      rw [hlen] at hj
      rw [hget i (by omega), hget j hj]
      intro heq
      have h1 : sessionName pfx g.header (i + 1) = sessionName pfx g.header (j + 1) := by
        injection heq with h2
        injection h2
      have := sessionName_injective pfx g.header _ _ h1
      omega
    · intro r hr
      obtain ⟨i, hi, hri⟩ := List.getElem_of_mem hr
      rw [hlen] at hi
      have h1 := hget i hi
      rw [List.getElem?_eq_getElem (by rw [hlen]; exact hi)] at h1
      injection h1 with h2
      rw [hri] at h2
      exact ⟨_, h2, hlenName _ (by omega)⟩

/-! ## Theorems: meta.go, the logger and zap.go -/

/-- C15: `GetSession` returns the session name visible in `ctx.Env()` when
there is one and it is not empty, and `ctx.Name()` when none is visible or the
visible one is empty; after `SetSession(ctx, s)`, `GetRealSession(ctx)` returns
`(s, true)` and `GetSession(ctx)` returns `s` when `s` is not empty.  The key
`keySession{}` can be hashed, so the lookup itself does not panic. -/
theorem GetSession_spec {L : Type} [Logger L] (ctx : myContextImpl L) (w : World) :
    (∃ r : Any × Bool, ctx.Env.Get Any.keySession w.heap = Outcome.ret r) ∧
    (∀ val : String,
      ctx.Env.Get Any.keySession w.heap = Outcome.ret (Any.string val, true) → val ≠ "" →
      GetSession ctx w = Outcome.ret val) ∧
    (ctx.Env.Get Any.keySession w.heap = Outcome.ret (Any.string "", true) →
      GetSession ctx w = Outcome.ret ctx.Name) ∧
    (∀ x : Any, ctx.Env.Get Any.keySession w.heap = Outcome.ret (x, false) →
      GetSession ctx w = Outcome.ret ctx.Name) ∧
    (∀ s : String,
      (SetSession ctx s w).1 = Outcome.ret () ∧
      GetRealSession ctx (SetSession ctx s w).2 = Outcome.ret (s, true) ∧
      (s ≠ "" → GetSession ctx (SetSession ctx s w).2 = Outcome.ret s) ∧
      (s = "" → GetSession ctx (SetSession ctx s w).2 = Outcome.ret ctx.Name)) := by
  refine ⟨⟨_, Get_hashable ctx.Env Any.keySession w.heap (by decide)⟩, ?_, ?_, ?_, ?_⟩
  · intro val hv hne
    simp [GetSession, env.GetString, hv, hne]
  · intro hv
    simp [GetSession, env.GetString, hv]
  · intro x hm
    simp [GetSession, env.GetString, hm]
  · intro s
    have hset : ctx.Env.Set Any.keySession (Any.string s) w.heap
        = (Outcome.ret (), w.heap.write ctx.Env.vals
            ⟨storeEntries (w.heap.vals ctx.Env.vals).entries Any.keySession (Any.string s)⟩) :=
      set_valid ctx.Env _ _ w.heap (by decide) (by decide)
    have hget : ctx.Env.Get Any.keySession (SetSession ctx s w).2.heap
        = Outcome.ret (Any.string s, true) := by
      simp only [SetSession, hset]
      rw [Get_hashable _ _ _ (by decide), find_set_same ctx.Env _ _ w.heap (by decide)]
    refine ⟨by simp [SetSession, hset], ?_, ?_, ?_⟩
    · simp [GetRealSession, env.GetString, hget]
    · intro hne
      simp [GetSession, env.GetString, hget, hne]
    · intro he
      subst he
      simp [GetSession, env.GetString, hget]

/-- C16: `With` appends.  For a logger with decoration sequence `l.kvs` and an
even number of key-values, `l.With(keyvals...)` has the sequence `l.kvs`
followed by the key-values in order, and `l` keeps its own; `With("A", "B")`
then `With("C", "D")` on a new logger gives A, B, C, D, as logger_test.go
checks. -/
theorem With_appends (l : logger) (keyvals : List Any) (_heven : keyvals.length % 2 = 0) :
    (l.With keyvals).kvs = l.kvs ++ keyvals ∧
    (l.With keyvals).name = l.name ∧ (l.With keyvals).location = l.location ∧
    ((NewLogger "" "").With [Any.string "A", Any.string "B"]).kvs
      = [Any.string "A", Any.string "B"] ∧
    (((NewLogger "" "").With [Any.string "A", Any.string "B"]).With
        [Any.string "C", Any.string "D"]).kvs
      = [Any.string "A", Any.string "B", Any.string "C", Any.string "D"] ∧
    ((NewLogger "" "").With [Any.string "A", Any.string "B"]).kvs.length = 2 :=
  ⟨rfl, rfl, rfl, rfl, rfl, rfl⟩

/-- C16 at a concrete input: the second `With` of logger_test.go. -/
theorem With_appends_witness :
    (((NewLogger "" "").With [Any.string "A", Any.string "B"]).With
        [Any.string "C", Any.string "D"]).kvs
      = ((NewLogger "" "").With [Any.string "A", Any.string "B"]).kvs
        ++ [Any.string "C", Any.string "D"] :=
  (With_appends ((NewLogger "" "").With [Any.string "A", Any.string "B"])
    [Any.string "C", Any.string "D"] (by decide)).1

theorem zlevelOf_none (level : String) (h1 : level ≠ "debug") (h2 : level ≠ "info")
    (h3 : level ≠ "warn") (h4 : level ≠ "error") (h5 : level ≠ "panic")
    (h6 : level ≠ "fatal") : zlevelOf level = none := by
  unfold zlevelOf
  split <;> simp_all

/-- C17: `NewSimpleLogger` rejects a level that is none of "debug", "info",
"warn", "error", "panic", "fatal": it returns a nil logger and the error
"Unexpected log level " followed by the level, and the directories are as
before the call, whatever the other arguments. -/
theorem NewSimpleLogger_rejects_level (host : Host) (level outpath encoding : String)
    (showCaller : Bool) (dirs : List String)
    (h1 : level ≠ "debug") (h2 : level ≠ "info") (h3 : level ≠ "warn")
    (h4 : level ≠ "error") (h5 : level ≠ "panic") (h6 : level ≠ "fatal") :
    (NewSimpleLogger host level outpath encoding showCaller dirs).1.1 = none ∧
    (NewSimpleLogger host level outpath encoding showCaller dirs).1.2
      = some ("Unexpected log level " ++ level) ∧
    (NewSimpleLogger host level outpath encoding showCaller dirs).1.2 ≠ none ∧
    (NewSimpleLogger host level outpath encoding showCaller dirs).2 = dirs := by
  unfold NewSimpleLogger
  rw [zlevelOf_none level h1 h2 h3 h4 h5 h6]
  simp

/-- C17 at a concrete input: the level "INFO" (the match is case-sensitive)
with an output path in a directory that does not exist. -/
theorem NewSimpleLogger_rejects_level_witness :
    (NewSimpleLogger ⟨fun _ => "logs", fun _ => none, fun _ => none⟩
        "INFO" "logs/app.log" "console" false []).1
      = (none, some "Unexpected log level INFO") ∧
    (NewSimpleLogger ⟨fun _ => "logs", fun _ => none, fun _ => none⟩
        "INFO" "logs/app.log" "console" false []).2 = [] := by
  have h := NewSimpleLogger_rejects_level ⟨fun _ => "logs", fun _ => none, fun _ => none⟩
    "INFO" "logs/app.log" "console" false [] (by decide) (by decide) (by decide) (by decide)
    (by decide) (by decide)
  exact ⟨Prod.ext h.1 h.2.1, h.2.2.2⟩

/-! ## Theorems: what a derivation shares -/

theorem stdWithDeadline_frame (parent : StdContext) (d : Int) (w : World) :
    (context.WithDeadline parent d w).2.cells = w.cells ∧
    (context.WithDeadline parent d w).2.nextCell = w.nextCell ∧
    (context.WithDeadline parent d w).2.heap = w.heap := by
  unfold context.WithDeadline
  by_cases hc : (parent.Deadline.2 && decide (parent.Deadline.1 < d)) = true
  · simp only [hc, if_true]
    exact ⟨rfl, rfl, rfl⟩
  · simp only [hc]
    exact ⟨rfl, rfl, rfl⟩

theorem WithDeadline_frame {L : Type} [Logger L] (c : myContextImpl L) (d : Int) (w : World) :
    sharesCounter c w (c.WithDeadline d w).1.1 (c.WithDeadline d w).2 ∧
    forksEnv c w (c.WithDeadline d w).1.1 (c.WithDeadline d w).2 := by
  have h := stdWithDeadline_frame (c.fork "" "" w).1.stdCtx d (c.fork "" "" w).2
  exact ⟨⟨rfl, h.1, h.2.1⟩, rfl, h.2.2⟩

theorem WithValue_frame {L : Type} [Logger L] (c : myContextImpl L) (k v : Any) (w : World) :
    (c.WithValue k v w).2 = (c.fork "" "" w).2 ∧
    ∀ d : myContextImpl L, (c.WithValue k v w).1 = Outcome.ret d →
      d.tracker = c.tracker ∧ d.env = (c.env.Fork w.heap).1 := by
  unfold myContextImpl.WithValue
  simp only []
  split
  · refine ⟨rfl, ?_⟩
    intro d hd
    injection hd with hd
    subst hd
    exact ⟨rfl, rfl⟩
  · refine ⟨rfl, ?_⟩
    intro d hd
    exact Outcome.noConfusion hd

/-- C18, as stated, fails in two places.  The counter is a `uint64`: when a
`ForkAt` on `c` draws 2^64 - 1, the next `ForkAt` on a context derived by
`WithCancel` draws 0, not one more.  And `WithValue` with a nil key panics and
returns no context. -/
theorem derived_next_wraps :
    (let c : myContextImpl logger :=
       { stdCtx := StdContext.background, tracker := 0, env := env.mk none 0,
         logger := NewLogger "root" "" }
     let w : World :=
       { heap := (NewEnv Heap.init).2, cells := fun _ => 2 ^ 64 - 2, nextCell := 1 }
     let d := c.WithCancel w
     let r := c.ForkAt "" d.2
     c.seq d.2 = 2 ^ 64 - 1 ∧ d.1.1.seq r.2 = 0 ∧ d.1.1.seq r.2 ≠ c.seq d.2 + 1 ∧
     (c.WithValue Any.nil (Any.int 1) w).1 = Outcome.panic "nil key") := by
  refine ⟨by decide, by decide, by decide, rfl⟩

/-- C18, amended: only `ForkAt`/`Fork` consume sequence numbers.  Each of `At`,
`WithCancel`, `WithDeadline`, `WithTimeout`, `Reborn`, `RebornWith`, and
`WithValue` with a non-nil key of comparable type, leaves every counter as it
was and returns a context that uses the counter of `c` (`WithValue` with any
other key panics, the counters unchanged).  Any such context `d` draws from the
same sequence as `c`: when `c.ForkAt` draws n, the next `ForkAt` on `d` draws
n + 1 modulo 2^64, which is n + 1 and differs from n unless n is 2^64 - 1. -/
theorem derived_shares_counter {L : Type} [Logger L] (c : myContextImpl L) (w : World)
    (halloc : c.tracker < w.nextCell) :
    (∀ location : String, sharesCounter c w (c.At location w).1 (c.At location w).2) ∧
    sharesCounter c w (c.WithCancel w).1.1 (c.WithCancel w).2 ∧
    (∀ t : Int, sharesCounter c w (c.WithDeadline t w).1.1 (c.WithDeadline t w).2) ∧
    (∀ t : Int, sharesCounter c w (c.WithTimeout t w).1.1 (c.WithTimeout t w).2) ∧
    sharesCounter c w (c.Reborn w).1 (c.Reborn w).2 ∧
    (∀ b : Option StdContext, sharesCounter c w (c.RebornWith b w).1 (c.RebornWith b w).2) ∧
    (∀ k v : Any,
      (c.WithValue k v w).2.cells = w.cells ∧ (c.WithValue k v w).2.nextCell = w.nextCell ∧
      (validKey k = true → ∃ d : myContextImpl L, (c.WithValue k v w).1 = Outcome.ret d ∧
        sharesCounter c w d (c.WithValue k v w).2)) ∧
    (∀ location : String, (c.ForkAt location w).2.cells c.tracker = c.seq w ∧
      (c.Fork w).2.cells c.tracker = c.seq w) ∧
    (∀ (d : myContextImpl L) (w2 : World) (location : String),
      d.tracker = c.tracker → c.tracker < w2.nextCell →
      d.seq w2 = c.seq w2 ∧
      d.seq (c.ForkAt location w2).2 = (c.seq w2 + 1) % 2 ^ 64 ∧
      c.seq (d.ForkAt location w2).2 = (d.seq w2 + 1) % 2 ^ 64 ∧
      (c.seq w2 ≠ 2 ^ 64 - 1 →
        d.seq (c.ForkAt location w2).2 = c.seq w2 + 1 ∧
        d.seq (c.ForkAt location w2).2 ≠ c.seq w2)) := by
  have h1 : c.tracker ≠ w.nextCell := by omega
  refine ⟨fun _ => ⟨rfl, rfl, rfl⟩, ⟨rfl, rfl, rfl⟩, fun t => (WithDeadline_frame c t w).1,
    fun t => ?_, ⟨rfl, rfl, rfl⟩, fun _ => ⟨rfl, rfl, rfl⟩, ?_, ?_, ?_⟩
  · exact (WithDeadline_frame c (w.now + t) w).1
  · intro k v
    have hf := WithValue_frame c k v w
    refine ⟨by rw [hf.1]; rfl, by rw [hf.1]; rfl, ?_⟩
    intro hk
    refine ⟨{ (c.fork "" "" w).1 with stdCtx := StdContext.valueCtx c.stdCtx k v },
      by rw [WithValue_valid c k v w hk], rfl, ?_, ?_⟩
    · rw [hf.1]; rfl
    · rw [hf.1]; rfl
  · intro location
    have hcell : (c.ForkAt location w).2.cells c.tracker = c.seq w := by
      rw [ForkAt_cells]; simp [h1]
    exact ⟨hcell, hcell⟩
  · intro d w2 location hd hal
    have h2 : c.tracker ≠ w2.nextCell := by omega
    have hdc : d.seq w2 = c.seq w2 := by rw [seq_eq, seq_eq, hd]
    have hnext : d.seq (c.ForkAt location w2).2 = (c.seq w2 + 1) % 2 ^ 64 := by
      rw [seq_eq, hd, ForkAt_cells]
      simp only [h2, if_false, if_true]
    have hnext2 : c.seq (d.ForkAt location w2).2 = (d.seq w2 + 1) % 2 ^ 64 := by
      rw [seq_eq, ForkAt_cells, hd]
      simp only [h2, if_false, if_true]
    refine ⟨hdc, hnext, hnext2, ?_⟩
    intro hne
    have hlt : c.seq w2 < 2 ^ 64 := by rw [seq_eq]; exact Nat.mod_lt _ (by norm_num)
    have : (c.seq w2 + 1) % 2 ^ 64 = c.seq w2 + 1 := Nat.mod_eq_of_lt (by omega)
    rw [hnext, this]
    exact ⟨rfl, by omega⟩

/-- C18 amended, at a concrete input: a root that has forked once, and the
context `WithCancel` derives from it. -/
theorem derived_shares_counter_witness :
    (let r0 : myContextImpl logger × World := Named "root" World.init
     let r1 := r0.1.ForkAt "" r0.2
     sharesCounter r0.1 r1.2 (r0.1.WithCancel r1.2).1.1 (r0.1.WithCancel r1.2).2) :=
  (derived_shares_counter (Named "root" World.init : myContextImpl logger × World).1
    ((Named "root" World.init : myContextImpl logger × World).1.ForkAt ""
      (Named "root" World.init : myContextImpl logger × World).2).2 (by decide)).2.1


theorem vals_mem_chain (e : env) : e.vals ∈ e.chain := by
  cases e with
  | mk parent a =>
    cases parent with
    | none => simp [env.chain, env.vals]
    | some p => simp [env.chain, env.vals]

/-- C19: every derivation forks the environment.  For a context `c` whose
environment is allocated, the context `d` that `Fork`, `ForkAt`, `At`,
`WithCancel`, `WithDeadline`, `WithTimeout`, `Reborn`, `RebornWith` return, and
that `WithValue` returns when it returns, has for `Env()` a new node whose
parent is `c.Env()`.  So `d.Env().Get` agrees with `c.Env().Get` at the
derivation and in every later store in which the own map of `d.Env()` has no
entry for the key, keys set on `c.Env()` afterwards included; and
`d.Env().Set` never changes a result of `c.Env().Get`. -/
theorem derived_forks_env {L : Type} [Logger L] (c : myContextImpl L) (w : World)
    (halloc : c.env.allocated w.heap = true) :
    (forksEnv c w (c.Fork w).1 (c.Fork w).2 ∧
     (∀ location : String, forksEnv c w (c.ForkAt location w).1 (c.ForkAt location w).2) ∧
     (∀ location : String, forksEnv c w (c.At location w).1 (c.At location w).2) ∧
     forksEnv c w (c.WithCancel w).1.1 (c.WithCancel w).2 ∧
     (∀ t : Int, forksEnv c w (c.WithDeadline t w).1.1 (c.WithDeadline t w).2) ∧
     (∀ t : Int, forksEnv c w (c.WithTimeout t w).1.1 (c.WithTimeout t w).2) ∧
     forksEnv c w (c.Reborn w).1 (c.Reborn w).2 ∧
     (∀ b : Option StdContext, forksEnv c w (c.RebornWith b w).1 (c.RebornWith b w).2) ∧
     (∀ (k v : Any) (d : myContextImpl L), (c.WithValue k v w).1 = Outcome.ret d →
       forksEnv c w d (c.WithValue k v w).2) ∧
     (∀ k v : Any, validKey k = true →
       ∃ d : myContextImpl L, (c.WithValue k v w).1 = Outcome.ret d)) ∧
    (∀ (d : myContextImpl L) (w2 : World), forksEnv c w d w2 →
      d.Env = env.mk (some c.Env) w.heap.next ∧
      d.Env.vals ∉ c.Env.chain ∧
      ForkedFrom c.Env d.Env ∧
      (∀ k : Any, d.Env.Get k w2.heap = c.Env.Get k w2.heap ∧
        c.Env.Get k w2.heap = c.Env.Get k w.heap) ∧
      (∀ (h : Heap) (k : Any), (loadEntries (h.vals d.Env.vals).entries k).2 = false →
        d.Env.Get k h = c.Env.Get k h) ∧
      (∀ (h : Heap) (k v : Any), validKey k = true → hashable k = true → keyEq k k = true →
        (loadEntries (h.vals d.Env.vals).entries k).2 = false →
        d.Env.Get k (c.Env.Set k v h).2 = Outcome.ret (v, true) ∧
        c.Env.Get k (c.Env.Set k v h).2 = Outcome.ret (v, true)) ∧
      (∀ (h : Heap) (k v : Any),
        (loadEntries (h.vals d.Env.vals).entries k).2 = false →
        d.Env.Get k (c.Env.Set k v h).2 = c.Env.Get k (c.Env.Set k v h).2) ∧
      (∀ (h : Heap) (k v k1 : Any), c.Env.Get k1 (d.Env.Set k v h).2 = c.Env.Get k1 h)) := by
  constructor
  · refine ⟨⟨rfl, rfl⟩, fun _ => ⟨rfl, rfl⟩, fun _ => ⟨rfl, rfl⟩, ⟨rfl, rfl⟩,
      fun t => (WithDeadline_frame c t w).2, fun t => (WithDeadline_frame c (w.now + t) w).2,
      ⟨rfl, rfl⟩, fun _ => ⟨rfl, rfl⟩, ?_, ?_⟩
    · intro k v d hd
      have hf := WithValue_frame c k v w
      exact ⟨(hf.2 d hd).2, by rw [hf.1]; rfl⟩
    · intro k v hk
      exact ⟨_, by rw [WithValue_valid c k v w hk]⟩
  · intro d w2 hf
    obtain ⟨hd, hw⟩ := hf
    have hde : d.Env = env.mk (some c.Env) w.heap.next := hd
    have hfresh : w.heap.next ∉ c.Env.chain := next_not_mem c.env w.heap halloc
    have hvals : d.Env.vals = w.heap.next := by rw [hde]; rfl
    have hne : c.Env.vals ≠ w.heap.next := by
      intro h; apply hfresh; rw [← h]; exact vals_mem_chain c.Env
    have hmissF : ∀ (h : Heap) (k : Any),
        (loadEntries (h.vals d.Env.vals).entries k).2 = false →
        d.Env.find k h = c.Env.find k h := by
      intro h k hl
      rw [hvals] at hl
      rw [hde, find_child, hl]
      simp
    have hmiss : ∀ (h : Heap) (k : Any),
        (loadEntries (h.vals d.Env.vals).entries k).2 = false →
        d.Env.Get k h = c.Env.Get k h := by
      intro h k hl
      rw [Get_eq_find, Get_eq_find, hmissF h k hl]
    have hkeep : ∀ (h : Heap) (k v : Any),
        (loadEntries (h.vals d.Env.vals).entries k).2 = false →
        (loadEntries (((c.Env.Set k v h).2).vals d.Env.vals).entries k).2 = false := by
      intro h k v hl
      rw [set_snd]
      split
      · rw [hvals] at hl ⊢
        simp only [Heap.write]
        rw [if_neg (fun h => hne h.symm)]
        exact hl
      · exact hl
    refine ⟨hde, by rw [hvals]; exact hfresh, ?_, ?_, hmiss, ?_, ?_, ?_⟩
    · rw [hde]
      exact ForkedFrom.child w.heap halloc
    · intro k
      have h1 : d.Env.Get k w2.heap = c.Env.Get k w.heap := by
        have := get_Fork c.env w.heap k halloc
        rw [← hd, ← hw] at this
        exact this
      have h2 : c.Env.Get k w2.heap = c.Env.Get k w.heap := by
        rw [hw]
        exact get_alloc k w.heap c.env hfresh
      exact ⟨by rw [h1, h2], h2⟩
    · intro h k v hk hh hr hl
      have hset : c.Env.Get k (c.Env.Set k v h).2 = Outcome.ret (v, true) :=
        get_set_same c.Env k v h hk hh hr
      exact ⟨by rw [hmiss _ k (hkeep h k v hl), hset], hset⟩
    · intro h k v hl
      exact hmiss _ k (hkeep h k v hl)
    · intro h k v k1
      rw [set_snd]
      split
      · apply Get_congr
        apply find_write_other
        rw [hvals]; exact hfresh
      · rfl

/-- C19 at a concrete input: the child `Fork` makes of a new root sees a key
set on the root after the fork. -/
theorem derived_forks_env_witness :
    (let r0 : myContextImpl logger × World := Named "root" World.init
     let r1 := r0.1.Fork r0.2
     r1.1.Env.Get (Any.string "x") (r0.1.Env.Set (Any.string "x") (Any.int 1) r1.2.heap).2
       = Outcome.ret (Any.int 1, true)) :=
  ((derived_forks_env (Named "root" World.init : myContextImpl logger × World).1
      (Named "root" World.init : myContextImpl logger × World).2 (by decide)).2
    ((Named "root" World.init : myContextImpl logger × World).1.Fork
      (Named "root" World.init : myContextImpl logger × World).2).1
    ((Named "root" World.init : myContextImpl logger × World).1.Fork
      (Named "root" World.init : myContextImpl logger × World).2).2
    ⟨rfl, rfl⟩).2.2.2.2.2.1 _ (Any.string "x") (Any.int 1) (by decide) (by decide) (by decide)
      (by decide) |>.1

end mycontext
